import Mathlib

/-!
Verification of the cynosure voice-assistant backend (src/backend) against its
natural-language specification.

The development shallowly embeds the Python code:

* text is `List Char` (`Str`); Python string methods are modelled character by
  character, for ASCII text (Python `str.lower` is Unicode-aware, the model
  lowercases ASCII letters only, which covers all inputs of interest);
* iteration that is not structurally recursive is driven by an explicit fuel
  parameter; each top-level wrapper passes a fuel that is provably sufficient
  (each loop step consumes at least one character), so the fueled function
  agrees with the unbounded Python loop on every input;
* the filesystem is an explicit state (`World`): an association list from
  absolutely resolved, component-wise paths to contents, plus a directory set
  and the persisted macro store;
* fallible code returns either `Except` or an error-tagged result string,
  mirroring the `ERROR: ...` convention of the Python tools. Python exception
  messages that embed machine-specific text (object addresses and similar) are
  modelled by their stable prefix.
-/

namespace Elysia

/-- Text as a list of characters.  Python strings of the backend are ASCII. -/
abbrev Str := List Char

/-- Shorthand turning a Lean string literal into the character-list model. -/
def str (s : String) : Str := s.data

/-- Python `\s` (`str.strip` class): space, tab, newline, return, vtab, formfeed. -/
def isPySpace (c : Char) : Bool :=
  c = ' ' || c = '\t' || c = '\n' || c = '\r' || c = '\x0b' || c = '\x0c'

/-- ASCII uppercase test, by code point. -/
def isUpper (c : Char) : Bool :=
  65 ≤ c.toNat && c.toNat ≤ 90

/-- ASCII lowercasing of one character (model of Python `str.lower`). -/
def pyLower (c : Char) : Char :=
  if 65 ≤ c.toNat && c.toNat ≤ 90 then Char.ofNat (c.toNat + 32) else c

/-- Python `str.strip()` with no argument: drop whitespace at both ends. -/
def pyStrip (s : Str) : Str :=
  ((s.dropWhile isPySpace).reverse.dropWhile isPySpace).reverse

/-- Python `str.strip(q)` for a one-character class: drop `q` at both ends. -/
def stripChar (q : Char) (s : Str) : Str :=
  ((s.dropWhile (· = q)).reverse.dropWhile (· = q)).reverse

/-- Index of the first occurrence of `pat` in `s` (Python `str.find` /
`re.search` of a literal).  `pat` is nonempty at every use site. -/
def findSub (pat : Str) : Str → Option Nat
  | [] => none
  | c :: t => if pat.isPrefixOf (c :: t) then some 0 else (findSub pat t).map (· + 1)

/-- Whether `pat` occurs in `s` as a contiguous substring (Python `in`). -/
def containsSub (pat s : Str) : Bool :=
  pat.isEmpty || (findSub pat s).isSome

/-- Fueled body of Python `str.replace(pat, rep)`: scan left to right, replace
every non-overlapping occurrence, continue after the replacement. -/
def replaceAllF (pat rep : Str) : Nat → Str → Str
  | 0, s => s
  | _ + 1, [] => []
  | f + 1, c :: t =>
    if pat.isPrefixOf (c :: t) then rep ++ replaceAllF pat rep f ((c :: t).drop pat.length)
    else c :: replaceAllF pat rep f t

/-- Python `str.replace(pat, rep)` for nonempty `pat`: the fuel `s.length` is
sufficient because every step consumes at least one character of `s`. -/
def replaceAll (pat rep s : Str) : Str :=
  replaceAllF pat rep s.length s

/-- Fueled body of `re.sub(r"\s+", " ", s)`: every maximal whitespace run
becomes one space. -/
def collapseWsF : Nat → Str → Str
  | 0, s => s
  | _ + 1, [] => []
  | f + 1, c :: t =>
    if isPySpace c then ' ' :: collapseWsF f (t.dropWhile isPySpace)
    else c :: collapseWsF f t

/-- `re.sub(r"\s+", " ", s)`; fuel `s.length` is sufficient. -/
def collapseWs (s : Str) : Str :=
  collapseWsF s.length s

/-- A sentence-terminal character, `[.!?]` of the segmentation regex. -/
def isTerm (c : Char) : Bool :=
  c = '.' || c = '!' || c = '?'

/-- Fueled body of `re.split(r"(?<=[.!?])\s+", text)`: a maximal whitespace run
directly after a terminal character separates two parts and is dropped. -/
def splitSentF : Nat → Str → Str → List Str
  | 0, acc, rest => [acc.reverse ++ rest]
  | _ + 1, acc, [] => [acc.reverse]
  | f + 1, acc, c :: t =>
    match t with
    | [] => [(c :: acc).reverse]
    | d :: _ =>
      if isTerm c && isPySpace d then
        (c :: acc).reverse :: splitSentF f [] (t.dropWhile isPySpace)
      else
        splitSentF f (c :: acc) t

/-- `re.split(r"(?<=[.!?])\s+", text)` (src/backend/main.py line 235).  The
result is never empty, matching `re.split`. -/
def splitSent (s : Str) : List Str :=
  splitSentF s.length [] s

/-! ## Tool-code fenced blocks

`TOOL_BLOCK_RE = re.compile(r"```tool_code\s*(.*?)```", re.S)` and the removal
loop of `handle_request` (src/backend/main.py lines 32 and 218-231).  A match
starts at the first occurrence of the literal opener; the greedy `\s*`
followed by the lazy `(.*?)` ends the match at the first triple backtick after
the opener, so the captured group is the region between them with its leading
whitespace removed. -/

/-- The literal opener of a tool-code fence. -/
def openerTB : Str := str "```tool_code"

/-- A triple backtick, closing a fence. -/
def closerTB : Str := str "```"

/-- Fueled body of the `while True` removal loop of `handle_request`: find the
first fence, splice it out of the buffer, run its captured body through `rb`
(the model of `_run_tool_block` followed by `clean_for_tts`, dropping empty
results), and rescan the spliced buffer from the start.  Returns the buffer
with all blocks removed and the spoken messages in order. -/
def toolBlockPassF (rb : Str → List Str) : Nat → Str → Str × List Str
  | 0, s => (s, [])
  | f + 1, s =>
    match findSub openerTB s with
    | none => (s, [])
    | some i =>
      let after := s.drop (i + openerTB.length)
      match findSub closerTB after with
      | none => (s, [])
      | some j =>
        let body := (after.take j).dropWhile isPySpace
        let rest := toolBlockPassF rb f (s.take i ++ after.drop (j + closerTB.length))
        (rest.1, rb body ++ rest.2)

/-- The tool-block pass of `handle_request` on one buffer snapshot.  Each loop
iteration removes at least the opener and closer (15 characters), so fuel
`s.length` is sufficient for any input. -/
def toolBlockPass (rb : Str → List Str) (s : Str) : Str × List Str :=
  toolBlockPassF rb s.length s

/-! ## Sanitization for speech: `clean_for_tts` (src/backend/main.py 171-177)

`FENCED_BLOCK_RE = (?s)(```.*?```|'''[\s\S]*?''')` substituted by the empty
string, then `INLINE_CODE_RE` backtick pairs unwrapped, then whitespace runs
collapsed and the ends stripped. -/

/-- A triple apostrophe, the second fence alternative. -/
def tripleQuote : Str := ['\'', '\'', '\'']

/-- Leftmost match of `FENCED_BLOCK_RE` as (start, length): the earliest
position opening a triple backtick or triple quote whose closer exists
later; the lazy body ends at the first closer. -/
def findFence : Str → Option (Nat × Nat)
  | [] => none
  | c :: t =>
    if closerTB.isPrefixOf (c :: t) then
      match findSub closerTB ((c :: t).drop 3) with
      | some j => some (0, 3 + j + 3)
      | none => (findFence t).map (fun p => (p.1 + 1, p.2))
    else if tripleQuote.isPrefixOf (c :: t) then
      match findSub tripleQuote ((c :: t).drop 3) with
      | some j => some (0, 3 + j + 3)
      | none => (findFence t).map (fun p => (p.1 + 1, p.2))
    else
      (findFence t).map (fun p => (p.1 + 1, p.2))

/-- Fueled body of `FENCED_BLOCK_RE.sub("", s)`: `re.sub` drops each match and
resumes scanning after it. -/
def removeFencedF : Nat → Str → Str
  | 0, s => s
  | f + 1, s =>
    match findFence s with
    | none => s
    | some p => s.take p.1 ++ removeFencedF f (s.drop (p.1 + p.2))

/-- `FENCED_BLOCK_RE.sub("", s)`; each match is at least 6 characters long so
fuel `s.length` is sufficient. -/
def removeFenced (s : Str) : Str :=
  removeFencedF s.length s

/-- Fueled body of `INLINE_CODE_RE.sub(r"\1", s)`: a backtick, one or more
non-backticks, a backtick; the pair of backticks is dropped, the body kept,
scanning resumes after the closing backtick. -/
def unwrapInlineF : Nat → Str → Str
  | 0, s => s
  | _ + 1, [] => []
  | f + 1, c :: t =>
    if c = '`' then
      let run := t.takeWhile (· ≠ '`')
      let rest := t.drop run.length
      if run.isEmpty || rest.isEmpty then c :: unwrapInlineF f t
      else run ++ unwrapInlineF f (rest.drop 1)
    else c :: unwrapInlineF f t

/-- `INLINE_CODE_RE.sub(r"\1", s)`; fuel `s.length` is sufficient. -/
def unwrapInline (s : Str) : Str :=
  unwrapInlineF s.length s

/-- `clean_for_tts` (src/backend/main.py 174-177): drop fenced blocks, unwrap
inline code, collapse whitespace, strip the ends. -/
def cleanForTTS (s : Str) : Str :=
  pyStrip (collapseWs (unwrapInline (removeFenced s)))

/-! ## The streaming response processor: `handle_request`
(src/backend/main.py 179-250)

The model follows the code statement by statement.  The nested async stream is
a list of responses, each a list of token events; `_aiter_with_timeout`
(lines 122-133) turns both `StopAsyncIteration` and `asyncio.TimeoutError`
into a clean `break`, so an inner stream that stalls behaves exactly like one
that ends after the tokens produced so far — `collectTokens` below.  An outer
(response-level) timeout likewise truncates the outer list.  The speech queue
and the `spoken` list receive exactly the same units in the same order
(every `put` is paired with an `append`), so one list models both.  The
`_run_tool_block` runner, which parses block text through `ast`, enters as the
function argument `rb`; its post-parse semantics is modelled separately
(`runToolBlock` below). -/

/-- One inner stream event: a text chunk, or a stall that the per-token
timeout converts into end-of-iteration. -/
inductive TokenEvent where
  | tok (s : Str)
  | stall
deriving DecidableEq

/-- The text collected from one response by the inner loop of lines 205-211:
all chunks before the first stall, concatenated. -/
def collectTokens : List TokenEvent → Str
  | [] => []
  | TokenEvent.tok s :: t => s ++ collectTokens t
  | TokenEvent.stall :: _ => []

/-- The per-turn mutable state of `handle_request`: the accumulation buffer,
the trailing partial sentence, and the units enqueued/spoken so far. -/
structure TurnState where
  accum : Str
  tail : Str
  spoken : List Str
deriving DecidableEq

/-- The state after `handle_request` has consumed one response (lines
211-241): skip an empty chunk join, extend the buffer, run and splice out
tool blocks, sanitize, take the suffix of `tail ++ clean` past `len(tail)`
characters (the code as written: `(tail + clean)[len(tail):]`), split into
sentences, enqueue all but the last stripped and nonempty, keep the last as
the new tail. -/
def processResponse (rb : Str → List Str) (st : TurnState) (raw : Str) : TurnState :=
  if raw.isEmpty then st
  else
    let p := toolBlockPass rb (st.accum ++ raw)
    let clean := cleanForTTS p.1
    let text := (st.tail ++ clean).drop st.tail.length
    let parts := splitSent text
    let units := (parts.dropLast.map pyStrip).filter (fun u => !u.isEmpty)
    { accum := p.1, tail := parts.getLastD [],
      spoken := st.spoken ++ p.2 ++ units }

/-- A whole turn (lines 198-247): fold the responses, then flush the
sanitized pending tail as a final unit if nonempty. -/
def runTurn (rb : Str → List Str) (resps : List (List TokenEvent)) : List Str :=
  let st := resps.foldl (fun st r => processResponse rb st (collectTokens r)) ⟨[], [], []⟩
  let last := pyStrip (cleanForTTS st.tail)
  if last.isEmpty then st.spoken else st.spoken ++ [last]

/-- A block runner that produces no spoken results; used to instantiate turns
whose input contains no tool block. -/
def rbNone : Str → List Str := fun _ => []

/-! ## Paths and the sandbox (src/backend/tools.py)

An absolute POSIX path is its list of components (`Path`); `os.path.abspath`
of a joined path is modelled by pushing components onto the base, where `..`
pops, and empty or `.` components vanish.  `FS_ROOT`, `WORKDIR` and the
directory-hint table (which the code builds from the host filesystem when
the module loads) are carried in a `Config`. -/

/-- An absolute filesystem path, as its components below the filesystem root. -/
abbrev Path := List Str

/-- The environment-dependent constants of tools.py lines 7-31: the sandbox
root, the default working directory, and the voice directory-hint table. -/
structure Config where
  fsRoot : Path
  workdir : Path
  hintMap : List (Str × Path)

/-- Association-list lookup by first component (Python `dict.get`). -/
def lookupStr {α : Type} (m : List (Str × α)) (k : Str) : Option α :=
  (m.find? (fun pr => pr.1 = k)).map (·.2)

/-- Split a path string at every slash (the component view that
`os.path.normpath` works on). -/
def splitSlash : Str → List Str
  | [] => [[]]
  | c :: t =>
    if c = '/' then [] :: splitSlash t
    else
      match splitSlash t with
      | [] => [[c]]
      | seg :: rest => (c :: seg) :: rest

/-- One normalization step: empty and `.` components vanish, `..` pops (and
stays at the root when there is nothing to pop, as `abspath` does). -/
def pushComp (acc : Path) (c : Str) : Path :=
  if c.isEmpty || c = ['.'] then acc
  else if c = ['.', '.'] then acc.dropLast
  else acc ++ [c]

/-- Normalize a component list into an absolute path. -/
def normPath (l : List Str) : Path :=
  l.foldl pushComp []

/-- `os.path.abspath(os.path.join(base, rel))`: an absolute `rel` discards the
base (as `os.path.join` does), otherwise the components of `rel` are
normalized on top of `base`. -/
def joinAbs (base : Path) (rel : Str) : Path :=
  if rel.head? = some '/' then normPath (splitSlash rel)
  else normPath (base ++ splitSlash rel)

/-- Render a path back to a string, for error messages. -/
def renderPath (p : Path) : Str :=
  if p.isEmpty then str "/" else p.foldl (fun a c => a ++ '/' :: c) []

/-- Join components with slashes and no leading slash (`os.path.relpath`
output shape). -/
def joinComps : List Str → Str
  | [] => []
  | h :: t => t.foldl (fun a c => a ++ '/' :: c) h

/-- `os.path.relpath(p, FS_ROOT)` for the in-root paths that reach it. -/
def relPathStr (cfg : Config) (p : Path) : Str :=
  if p = cfg.fsRoot then str "."
  else if cfg.fsRoot.isPrefixOf p then joinComps (p.drop cfg.fsRoot.length)
  else renderPath p

/-- `_join_safe` (tools.py 49-53): resolve, then require the result to be the
root or strictly below it (`startswith(FS_ROOT + os.sep) or == FS_ROOT`,
which on components is exactly the prefix test); otherwise raise
`ValueError(f"path escapes sandbox: {path}")`. -/
def joinSafe (cfg : Config) (base : Path) (rel : Str) : Except Str Path :=
  let p := joinAbs base rel
  if cfg.fsRoot.isPrefixOf p then Except.ok p
  else Except.error (str "path escapes sandbox: " ++ renderPath p)

/-! ## Voice normalization and directory hints (tools.py 34-75) -/

/-- The replacement table of `_normalize_spoken_path`, applied in source
order (so " forward slash " can never match: " slash " fires first). -/
def spokenPairs : List (Str × Str) :=
  [(str " dot ", str "."), (str " period ", str "."), (str " point ", str "."),
   (str " slash ", str "/"), (str " backslash ", str "/"),
   (str " forward slash ", str "/"),
   (str " under score ", str "_"), (str " underscore ", str "_")]

/-- `_normalize_spoken_path` (tools.py 34-41): pad with spaces, strip and
lowercase, replace the spoken-punctuation words, collapse whitespace, strip. -/
def normalizeSpokenPath (s : Str) : Str :=
  let s1 := ' ' :: ((pyStrip s).map pyLower ++ [' '])
  let s2 := spokenPairs.foldl (fun acc pr => replaceAll pr.1 pr.2 acc) s1
  pyStrip (collapseWs s2)

/-- ASCII word character of the `\b` boundary (`[A-Za-z0-9_]`). -/
def isWordChar (c : Char) : Bool :=
  c.isAlpha || c.isDigit || c = '_'

/-- A character of the hint-key class `[a-z0-9_\-\/]` (with `re.I`). -/
def isHintChar (c : Char) : Bool :=
  ('a' ≤ c && c ≤ 'z') || ('A' ≤ c && c ≤ 'Z') || c.isDigit || c = '_' || c = '-' || c = '/'

/-- The alternation `(in|to|into|under|on)` in source order. -/
def hintKeywords : List Str :=
  [str "in", str "to", str "into", str "under", str "on"]

/-- Try one alternation branch of the hint regex at the current position:
the keyword, then `\s+`, then the greedy hint-character run, whose trailing
non-word characters the final `\b` backtracks away.  Returns the length of
the whole match and the captured hint key. -/
def tryKeyword (kw rest : Str) : Option (Nat × Str) :=
  if kw.isPrefixOf rest then
    let t := rest.drop kw.length
    let ws := t.takeWhile isPySpace
    if ws.isEmpty then none
    else
      let run := (t.drop ws.length).takeWhile isHintChar
      let key := (run.reverse.dropWhile (fun c => c = '-' || c = '/')).reverse
      if key.isEmpty then none
      else some (kw.length + ws.length + key.length, key)
  else none

/-- Leftmost match of `\b(in|to|into|under|on)\s+([a-z0-9_\-\/]+)\b` as
(start, length, key): scan positions left to right, requiring a word
boundary before the keyword. -/
def findHintF : Nat → Bool → Nat → Str → Option (Nat × Nat × Str)
  | 0, _, _, _ => none
  | f + 1, prevW, i, s =>
    match s with
    | [] => none
    | c :: t =>
      match (if prevW then none else hintKeywords.findSome? (fun kw => tryKeyword kw (c :: t))) with
      | some pr => some (i, pr.1, pr.2)
      | none => findHintF f (isWordChar c) (i + 1) t

/-- `_parse_dir_hint` (tools.py 55-75): strip the matched phrase out of the
filename and resolve the hint key through the hint table, also allowing a
`head/sub/path` key whose head is in the table (the `os.makedirs` side
effect on such a subpath hint touches only directories and is not
modelled). -/
def parseDirHint (hintMap : List (Str × Path)) (filename : Str) : Str × Option Path :=
  match findHintF filename.length false 0 filename with
  | none => (pyStrip filename, none)
  | some (i, len, key) =>
    let fn := pyStrip (filename.take i ++ filename.drop (i + len))
    let hint :=
      match lookupStr hintMap key with
      | some p => some (normPath p)
      | none =>
        if key.contains '/' then
          match splitSlash key with
          | [] => none
          | h :: tl =>
            match lookupStr hintMap h with
            | some root => some (normPath (root ++ tl))
            | none => none
        else none
    (fn, hint)

/-- `os.path.basename`. -/
def basenameStr (s : Str) : Str :=
  (s.reverse.takeWhile (· ≠ '/')).reverse

/-- `os.path.dirname`. -/
def dirnameStr (s : Str) : Str :=
  ((s.reverse.dropWhile (· ≠ '/')).drop 1).reverse

/-- `_ensure_txt` (tools.py 77-79): default to a `.txt` extension when the
basename carries none. -/
def ensureTxt (s : Str) : Str :=
  if (basenameStr s).contains '.' then s else s ++ str ".txt"

/-- The pure pipeline of `_resolve_target` (tools.py 81-91) up to the final
join: spoken normalization, hint extraction, quote stripping, spaces to
underscores, and the `.txt` default for separator-free names.  Returns the
relative part and the optional hint directory. -/
def resolveParts (cfg : Config) (fname : Str) : Str × Option Path :=
  let f1 := normalizeSpokenPath fname
  let pr := parseDirHint cfg.hintMap f1
  let f3 := stripChar '\'' (stripChar '"' (pyStrip pr.1))
  let f4 := f3.map (fun c => if c = ' ' then '_' else c)
  let rel := if f4.contains '/' then f4 else ensureTxt f4
  (rel, pr.2)

/-! ## Python literal values

Keyword-argument values reaching the tools are `ast.literal_eval` results
(JSON-like values).  `litDisplay` models `str(value)` far enough for the
error messages in which it appears; container rendering is abbreviated. -/

/-- A Python literal as the tools receive it. -/
inductive Lit where
  | str (s : Str)
  | int (n : Int)
  | bool (b : Bool)
  | none
  | list (xs : List Lit)
  | dict (xs : List (Str × Lit))

instance : Inhabited Lit := ⟨Lit.none⟩

/-- Python truthiness of a literal (`if not x`). -/
def isFalsy : Lit → Bool
  | Lit.str s => s.isEmpty
  | Lit.int n => n = 0
  | Lit.bool b => !b
  | Lit.none => true
  | Lit.list xs => xs.isEmpty
  | Lit.dict xs => xs.isEmpty

/-- `str(value)` as far as the error messages need it. -/
def litDisplay : Lit → Str
  | Lit.str s => s
  | Lit.int n => str (toString n)
  | Lit.bool b => if b then str "True" else str "False"
  | Lit.none => str "None"
  | Lit.list _ => str "[...]"
  | Lit.dict _ => str "\x7b...\x7d"

/-- A keyword-argument dictionary. -/
abbrev KwDict := List (Str × Lit)

/-! ## The macro store (tools.py 212-253)

`MacroStore` keeps a JSON object from macro name to step list; `_save` and
`_load` move it to and from disk, which the model folds into the persistent
`macros` component of the world state. -/

/-- The persisted macro mapping. -/
abbrev McrMap := List (Str × List Lit)

/-- `self._macros[name] = steps`: dictionary update, insertion order kept. -/
def setMcr (m : McrMap) (k : Str) (v : List Lit) : McrMap :=
  if m.any (fun pr => pr.1 = k) then m.map (fun pr => if pr.1 = k then (k, v) else pr)
  else m ++ [(k, v)]

/-- `MacroStore.get`. -/
def mcrGet (m : McrMap) (k : Str) : Option (List Lit) :=
  lookupStr m k

/-- `MacroStore.add` (tools.py 232-240): reject a falsy or non-string name,
reject steps that are not a nonempty list, otherwise store and persist. -/
def mcrAdd (m : McrMap) (name steps : Lit) : Str × McrMap :=
  match name with
  | Lit.str s =>
    if s.isEmpty then (str "ERROR: invalid macro name", m)
    else
      match steps with
      | Lit.list l =>
        if l.isEmpty then (str "ERROR: steps must be a non-empty list", m)
        else (str "OK: macro '" ++ s ++ str "' saved with " ++ str (toString l.length) ++ str " step(s)",
              setMcr m s l)
      | _ => (str "ERROR: steps must be a non-empty list", m)
  | _ => (str "ERROR: invalid macro name", m)

/-- `MacroStore.remove` (tools.py 242-247). -/
def mcrRemove (m : McrMap) (name : Lit) : Str × McrMap :=
  match name with
  | Lit.str s =>
    if m.any (fun pr => pr.1 = s) then
      (str "OK: removed macro '" ++ s ++ str "'", m.filter (fun pr => pr.1 ≠ s))
    else (str "ERROR: macro not found: " ++ s, m)
  | v => (str "ERROR: macro not found: " ++ litDisplay v, m)

/-- Lexicographic order on character lists (Python string comparison). -/
def strLe : Str → Str → Bool
  | [], _ => true
  | _ :: _, [] => false
  | c :: t, d :: u =>
    if c.toNat < d.toNat then true
    else if d.toNat < c.toNat then false
    else strLe t u

/-- Insertion into a sorted list, for `sorted(...)`. -/
def insertSorted (x : Str) : List Str → List Str
  | [] => [x]
  | y :: t => if strLe x y then x :: y :: t else y :: insertSorted x t

/-- Python `sorted` on strings. -/
def sortStrs (l : List Str) : List Str :=
  l.foldr insertSorted []

/-- `MacroStore.list` (tools.py 249-250): the names, sorted. -/
def mcrList (m : McrMap) : List Str :=
  sortStrs (m.map (·.1))

/-! ## The filesystem state

`World` is the mutable state the tools act on: resolved files with contents,
known directories, and the persisted macro store.  A directory exists when it
is a recorded directory, an ancestor of one, or a proper ancestor of a file. -/

structure World where
  files : List (Path × Str)
  dirs : List Path
  macros : McrMap

/-- Content of the file at `p`, if one exists. -/
def lookupFile (w : World) (p : Path) : Option Str :=
  (w.files.find? (fun f => f.1 = p)).map (·.2)

/-- A file exists exactly at `p`. -/
def fileExists (w : World) (p : Path) : Bool :=
  w.files.any (fun f => f.1 = p)

/-- `os.path.isdir`. -/
def dirExists (w : World) (p : Path) : Bool :=
  w.dirs.any (fun d => p.isPrefixOf d) || w.files.any (fun f => p.isPrefixOf f.1 && p ≠ f.1)

/-- `os.path.exists`. -/
def existsPath (w : World) (p : Path) : Bool :=
  fileExists w p || dirExists w p

/-- `open(p, "w").write(c)`: create or truncate-and-write. -/
def setFile (w : World) (p : Path) (c : Str) : World :=
  if w.files.any (fun f => f.1 = p) then
    { w with files := w.files.map (fun f => if f.1 = p then (p, c) else f) }
  else { w with files := w.files ++ [(p, c)] }

/-- `f"path.bak"` appended to the rendered path: the last component gains the
suffix. -/
def bakPath (p : Path) : Path :=
  p.dropLast ++ [p.getLastD [] ++ str ".bak"]

/-- `os.replace(src, dst)`: move a file over any file at `dst`; for a
directory, move the subtree. -/
def renamePath (w : World) (src dst : Path) : World :=
  if fileExists w src then
    let moved := (w.files.filter (fun f => f.1 ≠ dst)).map
      (fun f => if f.1 = src then (dst, f.2) else f)
    { w with files := moved }
  else
    let movedFiles := w.files.map (fun f =>
      if src.isPrefixOf f.1 then (dst ++ f.1.drop src.length, f.2) else f)
    let movedDirs := w.dirs.map (fun d =>
      if src.isPrefixOf d then dst ++ d.drop src.length else d)
    { w with files := movedFiles, dirs := movedDirs }

/-- `os.makedirs(p, exist_ok=True)`. -/
def addDir (w : World) (p : Path) : World :=
  if w.dirs.contains p then w else { w with dirs := w.dirs ++ [p] }

/-- `_resolve_target` (tools.py 81-101): compute the relative part and base,
create the base and any relative subdirectory (the latter through
`_join_safe`, whose `ValueError` propagates), and resolve the full target
through `_join_safe`. -/
def resolveTarget (cfg : Config) (createDirs : Bool) (fname : Str) (w : World) :
    Except Str Path × World :=
  let pr := resolveParts cfg fname
  let base := pr.2.getD cfg.workdir
  if createDirs then
    let w1 := addDir w base
    let sub := dirnameStr pr.1
    if sub.isEmpty then (joinSafe cfg base pr.1, w1)
    else
      match joinSafe cfg base sub with
      | Except.error e => (Except.error e, w1)
      | Except.ok d => (joinSafe cfg base pr.1, addDir w1 d)
  else (joinSafe cfg base pr.1, w)

/-- `_find_candidates` (tools.py 103-115): normalize and quote-strip the
query, then collect up to `limit` files under the sandbox root whose
lowercased basename contains it. -/
def findCandidates (cfg : Config) (w : World) (query : Str) (limit : Nat) : List Path :=
  let q := stripChar '\'' (stripChar '"' (pyStrip (normalizeSpokenPath query)))
  ((w.files.filter (fun f =>
      cfg.fsRoot.isPrefixOf f.1 && containsSub q ((f.1.getLastD []).map pyLower))).map (·.1)).take limit

/-! ## The file tools (tools.py 117-210)

Each tool returns a result string, error-tagged with `ERROR:` on failure, and
never raises past its boundary.  Exception messages that embed host-specific
detail are modelled by a stable stand-in after the exception class name. -/

/-- `create_file` after alias resolution (tools.py 133-141).  A non-string
filename fails inside `_normalize_spoken_path` (`AttributeError`); a
non-string content fails in `f.write` after the file was already truncated. -/
def createFileCore (cfg : Config) (w : World) (fname content : Lit) : Str × World :=
  match fname with
  | Lit.str s =>
    match resolveTarget cfg true s w with
    | (Except.error e, w1) => (str "ERROR: ValueError: " ++ e, w1)
    | (Except.ok p, w1) =>
      let w2 := if existsPath w1 p then renamePath w1 p (bakPath p) else w1
      match content with
      | Lit.str c =>
        (str "OK: wrote " ++ str (toString c.length) ++ str " bytes to " ++ relPathStr cfg p,
         setFile w2 p c)
      | _ => (str "ERROR: TypeError: write() argument must be str", setFile w2 p [])
  | _ => (str "ERROR: AttributeError: strip", w)

/-- Python `data[:k]` for an arbitrary integer bound. -/
def sliceTo (data : Str) (k : Int) : Str :=
  if 0 ≤ k then data.take k.toNat
  else data.take (data.length - min data.length k.natAbs)

/-- The read-and-truncate tail of `read_file` (tools.py 168-172). -/
def readData (w : World) (p : Path) (mb : Lit) : Str :=
  match lookupFile w p with
  | some data =>
    match mb with
    | Lit.none => data
    | Lit.int n =>
      if (data.length : Int) > n then sliceTo data n ++ str "\n\n[TRUNCATED]" else data
    | _ => str "ERROR: TypeError: not comparable"
  | Option.none =>
    if dirExists w p then str "ERROR: IsADirectoryError: " ++ renderPath p
    else str "ERROR: FileNotFoundError: " ++ renderPath p

/-- `read_file` after alias resolution (tools.py 152-174): resolve without
creating directories, swallowing any resolution error; fall back to the fuzzy
in-root search when the path does not exist and the raw filename has no
separator; else a not-found error. -/
def readFileCore (cfg : Config) (w : World) (fname mb : Lit) : Str × World :=
  match fname with
  | Lit.str s =>
    let pathOpt : Option Path :=
      match (resolveTarget cfg false s w).1 with
      | Except.ok p => some p
      | Except.error _ => Option.none
    match pathOpt with
    | some p =>
      if existsPath w p then (readData w p mb, w)
      else if !(s.contains '/') && !(s.contains '\\') then
        match findCandidates cfg w s 3 with
        | [] => (str "ERROR: file not found: " ++ s, w)
        | q :: _ => (readData w q mb, w)
      else (str "ERROR: file not found: " ++ s, w)
    | Option.none =>
      if !(s.contains '/') && !(s.contains '\\') then
        match findCandidates cfg w s 3 with
        | [] => (str "ERROR: file not found: " ++ s, w)
        | q :: _ => (readData w q mb, w)
      else (str "ERROR: file not found: " ++ s, w)
  | _ => (str "ERROR: AttributeError: strip", w)

/-- Join result lines with newlines. -/
def joinLines : List Str → Str
  | [] => []
  | h :: t => t.foldl (fun a x => a ++ '\n' :: x) h

/-- The immediate child names of `base` in the world (`os.listdir`). -/
def childNames (w : World) (base : Path) : List Str :=
  ((w.files.map (·.1) ++ w.dirs).filterMap (fun p =>
      if base.isPrefixOf p && decide (base.length < p.length) then (p.drop base.length).head?
      else Option.none)).dedup

/-- The listing body of `list_dir` (tools.py 188-196). -/
def listDirEntries (cfg : Config) (w : World) (base : Path) : Str :=
  if !(dirExists w base) then str "ERROR: not a directory: " ++ renderPath base
  else
    let names := sortStrs (childNames w base)
    let entries := names.map (fun n =>
      relPathStr cfg (base ++ [n]) ++ (if dirExists w (base ++ [n]) then str "/" else []))
    if entries.isEmpty then str "(empty)" else joinLines entries

/-- `list_dir` (tools.py 176-198): empty/falsy path lists the workdir; a hint
phrase overrides; otherwise the path is joined under the workdir through
`_join_safe`, whose `ValueError` is caught into an error string. -/
def listDirCore (cfg : Config) (w : World) (path : Lit) : Str :=
  if isFalsy path then listDirEntries cfg w cfg.workdir
  else
    match path with
    | Lit.str s0 =>
      let s := normalizeSpokenPath s0
      match (parseDirHint cfg.hintMap s).2 with
      | some h => listDirEntries cfg w h
      | Option.none =>
        match joinSafe cfg cfg.workdir s with
        | Except.ok b => listDirEntries cfg w b
        | Except.error e => str "ERROR: ValueError: " ++ e
    | _ => str "ERROR: AttributeError: strip"

/-- `find_file` (tools.py 200-210). -/
def findFileCore (cfg : Config) (w : World) (name limit : Lit) : Str :=
  match name, limit with
  | Lit.str s, Lit.int n =>
    match findCandidates cfg w s n.toNat with
    | [] => str "(no matches)"
    | cands => joinLines (cands.map (relPathStr cfg))
  | Lit.str _, _ => str "ERROR: TypeError: not comparable"
  | _, _ => str "ERROR: AttributeError: strip"

/-! ## The tool registry and dispatch (src/backend/main.py 20-113)

`SAFE_TOOLS` maps tool names and aliases to the callables above plus the four
macro operations.  A call `fn(**kwargs)` binds keyword parameters the Python
way: a named parameter takes the matching key, the rest flow into `**kwargs`
when the function declares it and raise `TypeError` otherwise; a missing
required parameter raises `TypeError`.  Those call-time `TypeError`s are
caught by the per-line / per-step handler into error strings. -/

/-- The keys of `SAFE_TOOLS` after the macro tools are added (lines 20-30 and
77-82). -/
def toolNames : List Str :=
  [str "create_file", str "edit_file", str "read_file", str "read", str "cat",
   str "list_dir", str "ls", str "find_file", str "find",
   str "add_macro_tool", str "remove_macro_tool", str "list_macros", str "run_macro"]

/-- The filename aliases `_pop_any` accepts (tools.py 125 and 149). -/
def filenameAliases : List Str :=
  [str "path", str "name", str "file", str "filepath", str "file_path", str "target"]

/-- The content aliases `_pop_any` accepts (tools.py 127). -/
def contentAliases : List Str :=
  [str "text", str "body", str "data", str "contents", str "value"]

/-- `_pop_any` (tools.py 43-47): first listed key present with a non-`None`
value. -/
def popAny (kw : KwDict) (keys : List Str) : Option Lit :=
  keys.findSome? (fun k =>
    match lookupStr kw k with
    | some Lit.none => Option.none
    | some v => some v
    | Option.none => Option.none)

/-- Python `x in (None, "")`. -/
def isNoneOrEmptyStr : Option Lit → Bool
  | Option.none => true
  | some Lit.none => true
  | some (Lit.str s) => s.isEmpty
  | some _ => false

/-- `create_file(filename=None, content=None, **kwargs)` with the alias
resolution of tools.py 123-131. -/
def bindCreateFile (cfg : Config) (w : World) (kw : KwDict) : Str × World :=
  let fn0 := lookupStr kw (str "filename")
  let fn := if isNoneOrEmptyStr fn0 then popAny kw filenameAliases else fn0
  let ct0 := lookupStr kw (str "content")
  let ct :=
    match ct0 with
    | some Lit.none => popAny kw contentAliases
    | Option.none => popAny kw contentAliases
    | some v => some v
  if isNoneOrEmptyStr fn then (str "ERROR: missing filename", w)
  else createFileCore cfg w (fn.getD Lit.none) (ct.getD (Lit.str []))

/-- `read_file(filename=None, max_bytes=200_000, **kwargs)` with the alias
resolution of tools.py 148-151. -/
def bindReadFile (cfg : Config) (w : World) (kw : KwDict) : Str × World :=
  let fn0 := lookupStr kw (str "filename")
  let fn := if isNoneOrEmptyStr fn0 then popAny kw filenameAliases else fn0
  let mb := (lookupStr kw (str "max_bytes")).getD (Lit.int 200000)
  if isNoneOrEmptyStr fn then (str "ERROR: missing filename", w)
  else readFileCore cfg w (fn.getD Lit.none) mb

/-- `list_dir(path="")`: no `**kwargs`, so an unexpected key is a call-time
`TypeError`. -/
def bindListDir (cfg : Config) (w : World) (kw : KwDict) : Str × World :=
  if kw.any (fun pr => pr.1 ≠ str "path") then
    (str "ERROR: TypeError: unexpected keyword argument", w)
  else (listDirCore cfg w ((lookupStr kw (str "path")).getD (Lit.str [])), w)

/-- `find_file(name, limit=10)`: `name` is required, no `**kwargs`. -/
def bindFindFile (cfg : Config) (w : World) (kw : KwDict) : Str × World :=
  if kw.any (fun pr => pr.1 ≠ str "name" && pr.1 ≠ str "limit") then
    (str "ERROR: TypeError: unexpected keyword argument", w)
  else
    match lookupStr kw (str "name") with
    | some n => (findFileCore cfg w n ((lookupStr kw (str "limit")).getD (Lit.int 10)), w)
    | Option.none => (str "ERROR: TypeError: missing required argument", w)

/-- `add_macro_tool(name, steps)` (main.py 37-43): both required. -/
def bindAddMcrTool (w : World) (kw : KwDict) : Str × World :=
  if kw.any (fun pr => pr.1 ≠ str "name" && pr.1 ≠ str "steps") then
    (str "ERROR: TypeError: unexpected keyword argument", w)
  else
    match lookupStr kw (str "name"), lookupStr kw (str "steps") with
    | some n, some s =>
      let r := mcrAdd w.macros n s
      (r.1, { w with macros := r.2 })
    | _, _ => (str "ERROR: TypeError: missing required argument", w)

/-- `remove_macro_tool(name)` (main.py 45-46). -/
def bindRemoveMcrTool (w : World) (kw : KwDict) : Str × World :=
  if kw.any (fun pr => pr.1 ≠ str "name") then
    (str "ERROR: TypeError: unexpected keyword argument", w)
  else
    match lookupStr kw (str "name") with
    | some n =>
      let r := mcrRemove w.macros n
      (r.1, { w with macros := r.2 })
    | Option.none => (str "ERROR: TypeError: missing required argument", w)

/-- `list_macros()` (main.py 48-50). -/
def bindListMacros (w : World) (kw : KwDict) : Str × World :=
  if !kw.isEmpty then (str "ERROR: TypeError: unexpected keyword argument", w)
  else
    match mcrList w.macros with
    | [] => (str "(no macros)", w)
    | names => (joinLines names, w)

/-- The step loop of `run_macro` (main.py 60-75): each step must be a dict
with a `tool` key; its kwargs default to the empty dict (also when falsy);
unknown tool names and per-step exceptions become error lines and execution
continues with the next step.  `exec1` performs one tool call. -/
def runSteps (exec1 : World → Str → KwDict → Str × World) :
    World → Nat → List Lit → List Str × World
  | w, _, [] => ([], w)
  | w, i, step :: rest =>
    let r : Str × World :=
      match step with
      | Lit.dict d =>
        match lookupStr d (str "tool") with
        | Option.none => (str "ERROR: step " ++ str (toString i) ++ str " invalid", w)
        | some tname =>
          let kw0 := (lookupStr d (str "kwargs")).getD (Lit.dict [])
          let kw1 := if isFalsy kw0 then Lit.dict [] else kw0
          match tname with
          | Lit.str t =>
            if toolNames.contains t then
              match kw1 with
              | Lit.dict entries => exec1 w t entries
              | _ => (str "ERROR: TypeError: argument after ** must be a mapping", w)
            else (str "ERROR: unknown tool: " ++ t, w)
          | v => (str "ERROR: unknown tool: " ++ litDisplay v, w)
      | _ => (str "ERROR: step " ++ str (toString i) ++ str " invalid", w)
    let r2 := runSteps exec1 r.2 (i + 1) rest
    (r.1 :: r2.1, r2.2)

/-- `run_macro(name)` (main.py 52-75): look the macro up (`if not steps`
also rejects an empty stored list), run the steps, join the result lines. -/
def bindRunMcr (exec1 : World → Str → KwDict → Str × World) (w : World) (kw : KwDict) :
    Str × World :=
  if kw.any (fun pr => pr.1 ≠ str "name") then
    (str "ERROR: TypeError: unexpected keyword argument", w)
  else
    match lookupStr kw (str "name") with
    | Option.none => (str "ERROR: TypeError: missing required argument", w)
    | some nv =>
      let stepsO :=
        match nv with
        | Lit.str s => mcrGet w.macros s
        | _ => Option.none
      match stepsO with
      | Option.none => (str "ERROR: macro not found: " ++ litDisplay nv, w)
      | some [] => (str "ERROR: macro not found: " ++ litDisplay nv, w)
      | some steps =>
        let r := runSteps exec1 w 1 steps
        (joinLines r.1, r.2)

/-- Dispatch over `SAFE_TOOLS`, with the `run_macro` implementation passed
in. -/
def execCore (cfg : Config) (runMcrImpl : World → KwDict → Str × World)
    (w : World) (name : Str) (kw : KwDict) : Str × World :=
  if name = str "create_file" || name = str "edit_file" then bindCreateFile cfg w kw
  else if name = str "read_file" || name = str "read" || name = str "cat" then
    bindReadFile cfg w kw
  else if name = str "list_dir" || name = str "ls" then bindListDir cfg w kw
  else if name = str "find_file" || name = str "find" then bindFindFile cfg w kw
  else if name = str "add_macro_tool" then bindAddMcrTool w kw
  else if name = str "remove_macro_tool" then bindRemoveMcrTool w kw
  else if name = str "list_macros" then bindListMacros w kw
  else if name = str "run_macro" then runMcrImpl w kw
  else (str "ERROR: unknown tool: " ++ name, w)

/-- One tool call.  The fuel bounds the `run_macro` nesting depth, modelling
the Python recursion limit: a macro that reaches the bound produces the
`RecursionError` line its Python counterpart would. -/
def execTool : Nat → Config → World → Str → KwDict → Str × World
  | 0, cfg, w, name, kw =>
    execCore cfg
      (fun w1 _ => (str "ERROR: RecursionError: maximum recursion depth exceeded", w1))
      w name kw
  | f + 1, cfg, w, name, kw =>
    execCore cfg (fun w1 kw1 => bindRunMcr (execTool f cfg) w1 kw1) w name kw

/-! ## `_run_tool_block` (main.py 84-113)

A block line, after `strip`, is one of: empty or a `#` comment (skipped), a
parse failure, an expression that is not a call on a bare name, or a call
with positional arguments and keyword arguments whose values either are
literals or not (`ast.literal_eval` succeeds or raises).  The `ast` parser
itself is the Python standard library and stays outside the model; `PyLine`
is its output. -/

/-- A keyword-argument value as parsed: a literal, or an expression
`ast.literal_eval` rejects. -/
inductive KwVal where
  | lit (v : Lit)
  | nonLiteral

/-- One stripped line of a tool-code block, as `ast.parse` classifies it. -/
inductive PyLine where
  | skip
  | parseFail (msg : Str)
  | notCall (raw : Str)
  | call (fn : Str) (posArgs : List KwVal) (kwargs : List (Option Str × KwVal))

/-- `kwargs[kw.arg] = ...`: dictionary update in argument order. -/
def setKw (d : KwDict) (k : Str) (v : Lit) : KwDict :=
  if d.any (fun pr => pr.1 = k) then d.map (fun pr => if pr.1 = k then (k, v) else pr)
  else d ++ [(k, v)]

/-- The keyword loop of lines 104-108: a `**` splat (`kw.arg is None`) raises
`ValueError("**kwargs not allowed")`, a non-literal value makes
`ast.literal_eval` raise; the first failure aborts the line before the call. -/
def buildKwargs : KwDict → List (Option Str × KwVal) → Except Str KwDict
  | acc, [] => Except.ok acc
  | _, (Option.none, _) :: _ => Except.error (str "ERROR: ValueError: **kwargs not allowed")
  | _, (some _, KwVal.nonLiteral) :: _ =>
    Except.error (str "ERROR: ValueError: malformed node or string")
  | acc, (some k, KwVal.lit v) :: rest => buildKwargs (setKw acc k v) rest

/-- One line of `_run_tool_block` (main.py 91-112): comments and blanks are
skipped; a non-call shape is an `unsupported line` error; the registry is
consulted before the keywords are evaluated; positional arguments are never
inspected.  Every outcome is a result string — nothing escapes the handler. -/
def runLine (fuel : Nat) (cfg : Config) (w : World) : PyLine → Option Str × World
  | PyLine.skip => (Option.none, w)
  | PyLine.parseFail m => (some (str "ERROR: SyntaxError: " ++ m), w)
  | PyLine.notCall raw => (some (str "ERROR: unsupported line: " ++ raw), w)
  | PyLine.call fn _ kws =>
    if toolNames.contains fn then
      match buildKwargs [] kws with
      | Except.error e => (some e, w)
      | Except.ok d =>
        let r := execTool fuel cfg w fn d
        (some r.1, r.2)
    else (some (str "ERROR: unknown tool: " ++ fn), w)

/-- `_run_tool_block` over its classified lines: one result string per
non-skipped line, in order, threading the filesystem state. -/
def runToolBlock (fuel : Nat) (cfg : Config) : World → List PyLine → List Str × World
  | w, [] => ([], w)
  | w, l :: ls =>
    let r := runLine fuel cfg w l
    let r2 := runToolBlock fuel cfg r.2 ls
    (r.1.toList ++ r2.1, r2.2)

/-! ## Concrete instances and claim-statement vocabulary -/

/-- The purely plain segments and the removal result of a well-formed buffer:
`renderSegs` interleaves plain text with fenced blocks, `plainParts` is the
same buffer with the fenced regions spliced out. -/
def renderSegs (segs : List (Str × Str)) (plast : Str) : Str :=
  (segs.map (fun pr => pr.1 ++ (openerTB ++ (pr.2 ++ closerTB)))).flatten ++ plast

/-- The concatenation of the plain parts, in order. -/
def plainParts (segs : List (Str × Str)) (plast : Str) : Str :=
  (segs.map (·.1)).flatten ++ plast

/-- A store of `n` macros with distinct names `m0, m1, ...`. -/
def mkStore (n : Nat) : McrMap :=
  (List.range n).map (fun i => (str "m" ++ str (toString i), [Lit.dict []]))

/-- A concrete configuration: root `/root`, workdir `/root/workspace`, no
hints. -/
def cfg0 : Config :=
  ⟨[str "root"], [str "root", str "workspace"], []⟩

/-- `cfg0` with the always-present `repo` hint, mapping to the root itself
(tools.py line 24). -/
def cfg5 : Config :=
  ⟨[str "root"], [str "root", str "workspace"], [(str "repo", [str "root"])]⟩

/-- An empty workspace: no files, the workdir created at import time. -/
def w0 : World :=
  ⟨[], [[str "root", str "workspace"]], []⟩

/-- A workspace with one oddly named file directly under the root. -/
def w5 : World :=
  ⟨[([str "root", str "a.. in repo.txt"], str "zz")], [[str "root", str "workspace"]], []⟩

/-- A workspace holding `notes.txt` with content `old`. -/
def w9 : World :=
  ⟨[([str "root", str "workspace", str "notes.txt"], str "old")],
   [[str "root", str "workspace"]], []⟩

/-! ## Helper lemmas -/

/-- Dropping the length of a prefix recovers the appended list: the slice
`(tail + clean)[len(tail):]` of main.py line 234 is always exactly `clean`,
whatever the tail — the buffer suffix it was meant to compute never excludes
previously examined text. -/
theorem drop_length_append (a b : Str) : (a ++ b).drop a.length = b := by
  simp

/-- A stall ends the inner token iteration exactly where a clean end-of-stream
would: the chunks collected are those produced before it, and the events
after the stall never reach the processor. -/
theorem collectTokens_stall (pre : List Str) (rest : List TokenEvent) :
    collectTokens (pre.map TokenEvent.tok ++ TokenEvent.stall :: rest)
      = collectTokens (pre.map TokenEvent.tok) := by
  induction pre with
  | nil => rfl
  | cons s t ih => simp only [List.map_cons, List.cons_append, collectTokens, List.append_eq, ih]

/-- `findSub` misses a pattern whose first character does not occur. -/
theorem findSub_eq_none (h : Char) (pt s : Str) (hm : h ∉ s) :
    findSub (h :: pt) s = none := by
  induction s with
  | nil => rfl
  | cons c t ih =>
    have hne : (h == c) = false := by
      simp only [beq_eq_false_iff_ne]
      intro he
      exact hm (he ▸ List.mem_cons_self c t)
    simp only [findSub, List.isPrefixOf, hne, Bool.false_and, Bool.false_eq_true,
      if_false, ih (fun hmem => hm (List.mem_cons_of_mem c hmem)), Option.map_none']

/-- Searching past a prefix free of the pattern head shifts the match. -/
theorem findSub_append_shift (h : Char) (pt pre s : Str) (hm : h ∉ pre) :
    findSub (h :: pt) (pre ++ s) = (findSub (h :: pt) s).map (· + pre.length) := by
  induction pre with
  | nil =>
    cases hfs : findSub (h :: pt) s <;> simp [hfs]
  | cons c t ih =>
    have hne : (h == c) = false := by
      simp only [beq_eq_false_iff_ne]
      intro he
      exact hm (he ▸ List.mem_cons_self c t)
    have ht : h ∉ t := fun hmem => hm (List.mem_cons_of_mem c hmem)
    have hstep : findSub (h :: pt) ((c :: t) ++ s) = (findSub (h :: pt) (t ++ s)).map (· + 1) := by
      simp only [List.cons_append, findSub, List.isPrefixOf, hne, Bool.false_and,
        Bool.false_eq_true, if_false, List.append_eq]
    rw [hstep, ih ht]
    cases hfs : findSub (h :: pt) s
    · simp [hfs]
    · simp only [hfs, Option.map_some', List.length_cons, Option.some.injEq]
      omega

/-- A list is a prefix of itself followed by anything. -/
theorem isPrefixOf_append_self (l s : Str) : l.isPrefixOf (l ++ s) = true := by
  induction l with
  | nil => simp [List.isPrefixOf]
  | cons c t ih => simp [List.isPrefixOf, ih]

/-- `findSub` finds the pattern at position zero when the text starts with
it. -/
theorem findSub_cons_self (h : Char) (pt s : Str) :
    findSub (h :: pt) ((h :: pt) ++ s) = some 0 := by
  simp [findSub, isPrefixOf_append_self]

/-- The opener as head and tail, for the shift lemmas. -/
theorem openerTB_cons : openerTB = '`' :: str "``tool_code" := rfl

/-- The closer as head and tail, for the shift lemmas. -/
theorem closerTB_cons : closerTB = '`' :: str "``" := rfl

/-- One iteration of the removal loop on a buffer that begins with
backtick-free plain text followed by a well-formed fence: the match is
exactly the fence, the splice joins the plain text to what follows, and the
captured body is the fence content minus its leading whitespace. -/
theorem toolBlockPassF_step (rb : Str → List Str) (f : Nat) (q b rest : Str)
    (hq : '`' ∉ q) (hb : '`' ∉ b) :
    toolBlockPassF rb (f + 1) (q ++ (openerTB ++ (b ++ (closerTB ++ rest))))
      = ((toolBlockPassF rb f (q ++ rest)).1,
         rb (b.dropWhile isPySpace) ++ (toolBlockPassF rb f (q ++ rest)).2) := by
  have hopen : findSub openerTB (q ++ (openerTB ++ (b ++ (closerTB ++ rest)))) = some q.length := by
    rw [openerTB_cons, findSub_append_shift _ _ _ _ hq, findSub_cons_self]
    simp
  have hdrop1 : (q ++ (openerTB ++ (b ++ (closerTB ++ rest)))).drop (q.length + openerTB.length)
      = b ++ (closerTB ++ rest) := by
    rw [show q ++ (openerTB ++ (b ++ (closerTB ++ rest)))
          = (q ++ openerTB) ++ (b ++ (closerTB ++ rest)) by simp,
      show q.length + openerTB.length = (q ++ openerTB).length by simp]
    exact List.drop_left _ _
  have hclose : findSub closerTB (b ++ (closerTB ++ rest)) = some b.length := by
    rw [closerTB_cons, findSub_append_shift _ _ _ _ hb, findSub_cons_self]
    simp
  have htakeb : (b ++ (closerTB ++ rest)).take b.length = b := List.take_left _ _
  have hdrop2 : (b ++ (closerTB ++ rest)).drop (b.length + closerTB.length) = rest := by
    rw [show b ++ (closerTB ++ rest) = (b ++ closerTB) ++ rest by simp,
      show b.length + closerTB.length = (b ++ closerTB).length by simp]
    exact List.drop_left _ _
  have htakeq : (q ++ (openerTB ++ (b ++ (closerTB ++ rest)))).take q.length = q :=
    List.take_left _ _
  simp only [toolBlockPassF, hopen, hdrop1, hclose, htakeb, hdrop2, htakeq]

/-- The removal loop, run with enough fuel behind a backtick-free prefix,
splices out exactly the fenced regions. -/
theorem toolBlockPassF_render (rb : Str → List Str) :
    ∀ (segs : List (Str × Str)) (f : Nat) (q plast : Str),
      segs.length ≤ f → '`' ∉ q → (∀ pr ∈ segs, '`' ∉ pr.1 ∧ '`' ∉ pr.2) → '`' ∉ plast →
      (toolBlockPassF rb f (q ++ renderSegs segs plast)).1 = q ++ plainParts segs plast := by
  intro segs
  induction segs with
  | nil =>
    intro f q plast _ hq _ hlast
    have hqp : '`' ∉ q ++ plast := by
      intro hmem
      rcases List.mem_append.mp hmem with hc | hc
      · exact hq hc
      · exact hlast hc
    cases f with
    | zero => simp [renderSegs, plainParts, toolBlockPassF]
    | succ f =>
      have hnone : findSub openerTB (q ++ plast) = none := by
        rw [openerTB_cons]
        exact findSub_eq_none _ _ _ hqp
      simp [renderSegs, plainParts, toolBlockPassF, hnone]
  | cons pr segs ih =>
    intro f q plast hlen hq hsegs hlast
    cases f with
    | zero => simp at hlen
    | succ f =>
      have hp : '`' ∉ pr.1 := (hsegs pr (List.mem_cons_self pr segs)).1
      have hb : '`' ∉ pr.2 := (hsegs pr (List.mem_cons_self pr segs)).2
      have hqp : '`' ∉ q ++ pr.1 := by
        intro hmem
        rcases List.mem_append.mp hmem with hc | hc
        · exact hq hc
        · exact hp hc
      have harr : q ++ renderSegs (pr :: segs) plast
          = (q ++ pr.1) ++ (openerTB ++ (pr.2 ++ (closerTB ++ renderSegs segs plast))) := by
        simp [renderSegs]
      rw [harr, toolBlockPassF_step rb f (q ++ pr.1) pr.2 (renderSegs segs plast) hqp hb]
      have hrec := ih f (q ++ pr.1) plast (by simpa using Nat.le_of_succ_le_succ hlen) hqp
        (fun x hx => hsegs x (List.mem_cons_of_mem pr hx)) hlast
      simp only [hrec, plainParts, List.map_cons, List.flatten]
      simp

/-! ## The claims -/

/-- C3: in the turn whose single response streams
"Hello there. How are you", the completed sentence "Hello there." is already
on the speech queue when the response-processing step finishes — before the
turn has ended — while "How are you" is retained as the pending tail, and the
full turn flushes that tail as a final unit at stream end. -/
theorem c3_immediate_enqueue :
    (processResponse rbNone ⟨[], [], []⟩ (str "Hello there. How are you")).spoken
        = [str "Hello there."] ∧
    (processResponse rbNone ⟨[], [], []⟩ (str "Hello there. How are you")).tail
        = str "How are you" ∧
    runTurn rbNone [[TokenEvent.tok (str "Hello there. How are you")]]
        = [str "Hello there.", str "How are you"] := by
  refine ⟨by decide, by decide, by decide⟩

/-- C2 (code bug): on a turn of two responses, "Hello there. How" followed by
" are you. Done.", the processor enqueues "Hello there." twice.  The slice
`(tail + clean)[len(tail):]` (main.py line 234) is the whole sanitized
buffer (`drop_length_append`), so every later response re-splits and
re-enqueues the sentences of the earlier ones, contradicting the comment
"speak newly completed sentences" above it. -/
theorem c2_duplicate_sentence_eval :
    runTurn rbNone
        [[TokenEvent.tok (str "Hello there. How")], [TokenEvent.tok (str " are you. Done.")]]
      = [str "Hello there.", str "Hello there.", str "How are you.", str "Done."] := by
  decide

/-- C8: a token stream that stalls behaves exactly like one that ends after
the text produced so far: iteration stops cleanly (the model of
`_aiter_with_timeout`, which turns the timeout into a `break`), the
accumulated text is preserved and still delivered, and the pending tail is
flushed as a final unit at stream end — concretely, a response stalling after
"Hello there. " and "How" still speaks both the sentence and the flushed
tail, and chunks after the stall never arrive. -/
theorem c8_stall_preserves_text :
    (∀ (rb : Str → List Str) (st : TurnState) (pre : List Str) (rest : List TokenEvent),
        processResponse rb st (collectTokens (pre.map TokenEvent.tok ++ TokenEvent.stall :: rest))
          = processResponse rb st (collectTokens (pre.map TokenEvent.tok))) ∧
    runTurn rbNone
        [[TokenEvent.tok (str "Hello there. "), TokenEvent.tok (str "How"),
          TokenEvent.stall, TokenEvent.tok (str "LOST")]]
      = [str "Hello there.", str "How"] := by
  constructor
  · intro rb st pre rest
    rw [collectTokens_stall]
  · decide

/-- The opener and closer contribute 15 characters per segment, so the
buffer is at least as long as the segment count. -/
theorem length_le_renderSegs (segs : List (Str × Str)) (plast : Str) :
    segs.length ≤ (renderSegs segs plast).length := by
  induction segs with
  | nil => simp [renderSegs]
  | cons pr segs ih =>
    have ho : openerTB.length = 12 := rfl
    have hc : closerTB.length = 3 := rfl
    simp only [renderSegs, List.map_cons, List.flatten_cons, List.length_append,
      List.length_cons, ho, hc] at ih ⊢
    omega

/-- C4: on a buffer made of plain text interleaved with well-formed
tool_code fences (no stray backtick outside the fence markers, none inside a
block body), the removal loop of `handle_request` splices out exactly the
fenced regions and returns the surrounding plain text, in order and
unchanged. -/
theorem c4_tool_block_removal (rb : Str → List Str) (segs : List (Str × Str)) (plast : Str)
    (hsegs : ∀ pr ∈ segs, '`' ∉ pr.1 ∧ '`' ∉ pr.2) (hlast : '`' ∉ plast) :
    (toolBlockPass rb (renderSegs segs plast)).1 = plainParts segs plast := by
  have hlen : segs.length ≤ (renderSegs segs plast).length :=
    length_le_renderSegs segs plast
  have h := toolBlockPassF_render rb segs (renderSegs segs plast).length [] plast hlen
    (by simp) hsegs hlast
  simpa [toolBlockPass] using h

/-- Witness for C4 at the buffer "Hi " ++ fence("ls()") ++ " bye.". -/
theorem c4_tool_block_removal_witness :
    (∀ pr ∈ [(str "Hi ", str "ls()")], '`' ∉ pr.1 ∧ '`' ∉ pr.2) ∧ '`' ∉ str " bye." ∧
    (toolBlockPass rbNone (renderSegs [(str "Hi ", str "ls()")] (str " bye."))).1
      = plainParts [(str "Hi ", str "ls()")] (str " bye.") :=
  ⟨by decide, by decide, c4_tool_block_removal rbNone _ _ (by decide) (by decide)⟩

/-! ## C1: the macro store has no maximum count -/

/-- The fresh name "new" is absent from every `mkStore n`. -/
theorem mcrGet_mkStore_new (n : Nat) : mcrGet (mkStore n) (str "new") = none := by
  unfold mcrGet lookupStr
  rw [List.find?_eq_none.mpr]
  · rfl
  · intro pr hpr
    simp only [mkStore, List.mem_map, List.mem_range] at hpr
    obtain ⟨i, _, heq⟩ := hpr
    simp only [decide_eq_true_eq]
    intro hk
    rw [← heq] at hk
    have : 'm' :: (str (toString i)) = str "new" := hk
    have hh := List.head_eq_of_cons_eq this
    exact absurd hh (by decide)

/-- `mkStore n` holds exactly `n` macros. -/
theorem mkStore_length (n : Nat) : (mkStore n).length = n := by
  simp [mkStore]

/-- The updated entry is found after `setMcr`. -/
theorem find?_setMcr (k : Str) (v : List Lit) :
    ∀ (m : McrMap), (setMcr m k v).find? (fun pr => pr.1 = k) = some (k, v) := by
  intro m
  induction m with
  | nil => simp [setMcr, List.find?]
  | cons pr m ih =>
    by_cases h : pr.1 = k
    · simp [setMcr, List.any_cons, h, List.find?]
    · by_cases hany : m.any (fun q => decide (q.1 = k))
      · have ih2 := ih
        simp only [setMcr, hany, if_true] at ih2
        simp [setMcr, List.any_cons, h, hany, List.find?, ih2]
      · have ih2 := ih
        simp only [setMcr, hany, if_false, Bool.false_eq_true] at ih2
        simp [setMcr, List.any_cons, h, hany, List.find?, ih2]

/-- A stored macro is retrieved by its name after `setMcr`. -/
theorem mcrGet_setMcr (m : McrMap) (k : Str) (v : List Lit) :
    mcrGet (setMcr m k v) k = some v := by
  unfold mcrGet lookupStr
  rw [find?_setMcr]
  rfl

/-- C1 counterexample: there is no maximum macro count that `MacroStore.add`
enforces — for every claimed bound there is a store at that size on which
adding a fresh, valid macro returns a non-error result (so the claimed
error/unchanged behaviour fails). -/
theorem c1_no_max_counterexample :
    ¬ ∃ maxCount : Nat, ∀ (m : McrMap) (name : Str) (steps : List Lit),
        name ≠ [] → steps ≠ [] → mcrGet m name = none → maxCount ≤ m.length →
        (str "ERROR").isPrefixOf (mcrAdd m (Lit.str name) (Lit.list steps)).1 = true ∧
        (mcrAdd m (Lit.str name) (Lit.list steps)).2 = m := by
  rintro ⟨M, h⟩
  have hM := h (mkStore M) (str "new") [Lit.dict []] (by decide) (List.cons_ne_nil _ _)
    (mcrGet_mkStore_new M) (by rw [mkStore_length])
  have hmsg : (mcrAdd (mkStore M) (Lit.str (str "new")) (Lit.list [Lit.dict []])).1
      = str "OK: macro 'new' saved with 1 step(s)" := rfl
  rw [hmsg] at hM
  exact absurd hM.1 (by decide)

/-- C1 amended: `add` validates the name (nonempty string) and the steps
(nonempty list) and then always persists the macro, whatever the current
store size — no maximum count is enforced. -/
theorem c1_add_always_persists (m : McrMap) (name : Str) (steps : List Lit)
    (hn : name ≠ []) (hs : steps ≠ []) :
    (str "OK").isPrefixOf (mcrAdd m (Lit.str name) (Lit.list steps)).1 = true ∧
    mcrGet (mcrAdd m (Lit.str name) (Lit.list steps)).2 name = some steps := by
  have hne : name.isEmpty = false := by
    cases name with
    | nil => exact absurd rfl hn
    | cons c t => rfl
  have hse : steps.isEmpty = false := by
    cases steps with
    | nil => exact absurd rfl hs
    | cons c t => rfl
  constructor
  · simp only [mcrAdd, hne, Bool.false_eq_true, if_false, hse]
    have : str "OK: macro '" ++ name ++ str "' saved with " ++ str (toString steps.length)
        ++ str " step(s)" = str "OK" ++ (str ": macro '" ++ name ++ str "' saved with "
        ++ str (toString steps.length) ++ str " step(s)") := by simp [str]
    rw [this, isPrefixOf_append_self]
  · simp only [mcrAdd, hne, Bool.false_eq_true, if_false, hse]
    exact mcrGet_setMcr m name steps

/-- Witness for C1 amended at a concrete store already holding two macros. -/
theorem c1_add_always_persists_witness :
    str "greet" ≠ [] ∧ [Lit.dict []] ≠ ([] : List Lit) ∧
    ((str "OK").isPrefixOf
        (mcrAdd (mkStore 2) (Lit.str (str "greet")) (Lit.list [Lit.dict []])).1 = true ∧
      mcrGet (mcrAdd (mkStore 2) (Lit.str (str "greet")) (Lit.list [Lit.dict []])).2
          (str "greet") = some [Lit.dict []]) :=
  ⟨by decide, List.cons_ne_nil _ _, c1_add_always_persists (mkStore 2) (str "greet")
    [Lit.dict []] (by decide) (List.cons_ne_nil _ _)⟩

/-! ## C6 and C7: line and step dispatch -/

/-- `_run_tool_block` processes lines left to right, threading the state:
splitting the line list splits the results. -/
theorem runToolBlock_append (fuel : Nat) (cfg : Config) (w : World) (l1 l2 : List PyLine) :
    runToolBlock fuel cfg w (l1 ++ l2)
      = ((runToolBlock fuel cfg w l1).1
            ++ (runToolBlock fuel cfg (runToolBlock fuel cfg w l1).2 l2).1,
         (runToolBlock fuel cfg (runToolBlock fuel cfg w l1).2 l2).2) := by
  induction l1 generalizing w with
  | nil => simp [runToolBlock]
  | cons l ls ih => simp [runToolBlock, ih]

/-- `run_macro` processes steps in order, threading the state and the
one-based step index. -/
theorem runSteps_append (e : World → Str → KwDict → Str × World) (w : World) (i : Nat)
    (s1 s2 : List Lit) :
    runSteps e w i (s1 ++ s2)
      = ((runSteps e w i s1).1
            ++ (runSteps e (runSteps e w i s1).2 (i + s1.length) s2).1,
         (runSteps e (runSteps e w i s1).2 (i + s1.length) s2).2) := by
  induction s1 generalizing w i with
  | nil => simp [runSteps]
  | cons sl ss ih =>
    simp [runSteps, ih, Nat.add_assoc, Nat.add_comm, Nat.add_left_comm]

/-- C6: a tool-code line calling a name absent from `SAFE_TOOLS`, and a macro
step naming an unknown tool, each yield an error-tagged result string for
that line/step only; nothing is raised (the model functions are total, as the
per-line and per-step handlers catch every exception), the state is
untouched by the failing line/step, and the remaining lines/steps still
run. -/
theorem c6_unknown_tool_error :
    (∀ (fuel : Nat) (cfg : Config) (w : World) (pre post : List PyLine)
        (n : Str) (pos : List KwVal) (kws : List (Option Str × KwVal)),
        toolNames.contains n = false →
        runToolBlock fuel cfg w (pre ++ PyLine.call n pos kws :: post)
          = ((runToolBlock fuel cfg w pre).1 ++ (str "ERROR: unknown tool: " ++ n)
                :: (runToolBlock fuel cfg (runToolBlock fuel cfg w pre).2 post).1,
             (runToolBlock fuel cfg (runToolBlock fuel cfg w pre).2 post).2)) ∧
    (∀ (e : World → Str → KwDict → Str × World) (w : World) (i : Nat)
        (pre post : List Lit) (n : Str),
        toolNames.contains n = false →
        runSteps e w i (pre ++ Lit.dict [(str "tool", Lit.str n)] :: post)
          = ((runSteps e w i pre).1 ++ (str "ERROR: unknown tool: " ++ n)
                :: (runSteps e (runSteps e w i pre).2 (i + pre.length + 1) post).1,
             (runSteps e (runSteps e w i pre).2 (i + pre.length + 1) post).2)) := by
  constructor
  · intro fuel cfg w pre post n pos kws hn
    rw [runToolBlock_append]
    have hline : runLine fuel cfg (runToolBlock fuel cfg w pre).2 (PyLine.call n pos kws)
        = (some (str "ERROR: unknown tool: " ++ n), (runToolBlock fuel cfg w pre).2) := by
      simp only [runLine, hn, Bool.false_eq_true, if_false]
    simp [runToolBlock, hline]
  · intro e w i pre post n hn
    rw [runSteps_append]
    have hstep : runSteps e (runSteps e w i pre).2 (i + pre.length)
          (Lit.dict [(str "tool", Lit.str n)] :: post)
        = ((str "ERROR: unknown tool: " ++ n)
              :: (runSteps e (runSteps e w i pre).2 (i + pre.length + 1) post).1,
           (runSteps e (runSteps e w i pre).2 (i + pre.length + 1) post).2) := by
      have hmem : ¬ n ∈ toolNames := by simpa using hn
      simp [runSteps, lookupStr, List.find?, isFalsy, hmem]
    simp [hstep]

/-- Witness for C6: the unknown name "frobnicate" inside a block and inside
a macro, with lines and steps after it still executed. -/
theorem c6_unknown_tool_error_witness :
    toolNames.contains (str "frobnicate") = false ∧
    runToolBlock 1 cfg0 w0
        ([PyLine.skip] ++ PyLine.call (str "frobnicate") [] []
            :: [PyLine.call (str "list_macros") [] []])
      = ((runToolBlock 1 cfg0 w0 [PyLine.skip]).1 ++ (str "ERROR: unknown tool: " ++ str "frobnicate")
            :: (runToolBlock 1 cfg0 (runToolBlock 1 cfg0 w0 [PyLine.skip]).2
                  [PyLine.call (str "list_macros") [] []]).1,
         (runToolBlock 1 cfg0 (runToolBlock 1 cfg0 w0 [PyLine.skip]).2
              [PyLine.call (str "list_macros") [] []]).2) ∧
    runSteps (execTool 1 cfg0) w0 1
        ([] ++ Lit.dict [(str "tool", Lit.str (str "frobnicate"))]
            :: [Lit.dict [(str "tool", Lit.str (str "list_macros"))]])
      = ((runSteps (execTool 1 cfg0) w0 1 []).1 ++ (str "ERROR: unknown tool: " ++ str "frobnicate")
            :: (runSteps (execTool 1 cfg0) (runSteps (execTool 1 cfg0) w0 1 []).2
                  (1 + List.length ([] : List Lit) + 1)
                  [Lit.dict [(str "tool", Lit.str (str "list_macros"))]]).1,
         (runSteps (execTool 1 cfg0) (runSteps (execTool 1 cfg0) w0 1 []).2
              (1 + List.length ([] : List Lit) + 1)
              [Lit.dict [(str "tool", Lit.str (str "list_macros"))]]).2) :=
  ⟨by decide,
   c6_unknown_tool_error.1 1 cfg0 w0 [PyLine.skip] [PyLine.call (str "list_macros") [] []]
     (str "frobnicate") [] [] (by decide),
   c6_unknown_tool_error.2 (execTool 1 cfg0) w0 1 []
     [Lit.dict [(str "tool", Lit.str (str "list_macros"))]] (str "frobnicate") (by decide)⟩

/-- C7 counterexample: a line with a positional argument is not rejected —
`list_dir("x")` executes (the positional argument silently dropped) and
returns the workspace listing "(empty)", not an error result. -/
theorem c7_positional_executed_counterexample :
    (runToolBlock 1 cfg0 w0
        [PyLine.call (str "list_dir") [KwVal.lit (Lit.str (str "x"))] []]).1
      = [str "(empty)"] ∧
    (str "ERROR").isPrefixOf (str "(empty)") = false := by
  exact ⟨by decide, by decide⟩

/-- C7 amended: a non-call line yields an `unsupported line` error and the
block continues; a `**kwargs` splat or a non-literal keyword value yields a
`ValueError` line without executing the call; but positional arguments are
not rejected — they are silently ignored, the outcome of a call line never
depends on them. -/
theorem c7_line_validation_amended :
    (∀ (fuel : Nat) (cfg : Config) (w : World) (n : Str) (pos pos2 : List KwVal)
        (kws : List (Option Str × KwVal)),
        runLine fuel cfg w (PyLine.call n pos kws) = runLine fuel cfg w (PyLine.call n pos2 kws)) ∧
    (∀ (fuel : Nat) (cfg : Config) (w : World) (n : Str) (pos : List KwVal)
        (v : KwVal) (rest : List (Option Str × KwVal)),
        toolNames.contains n = true →
        runLine fuel cfg w (PyLine.call n pos ((Option.none, v) :: rest))
          = (some (str "ERROR: ValueError: **kwargs not allowed"), w)) ∧
    (∀ (fuel : Nat) (cfg : Config) (w : World) (n : Str) (pos : List KwVal)
        (k : Str) (rest : List (Option Str × KwVal)),
        toolNames.contains n = true →
        runLine fuel cfg w (PyLine.call n pos ((some k, KwVal.nonLiteral) :: rest))
          = (some (str "ERROR: ValueError: malformed node or string"), w)) ∧
    (∀ (fuel : Nat) (cfg : Config) (w : World) (raw : Str) (rest : List PyLine),
        runToolBlock fuel cfg w (PyLine.notCall raw :: rest)
          = ((str "ERROR: unsupported line: " ++ raw) :: (runToolBlock fuel cfg w rest).1,
             (runToolBlock fuel cfg w rest).2)) := by
  refine ⟨?_, ?_, ?_, ?_⟩
  · intro fuel cfg w n pos pos2 kws
    rfl
  · intro fuel cfg w n pos v rest hn
    simp only [runLine, hn, if_true, buildKwargs]
  · intro fuel cfg w n pos k rest hn
    simp only [runLine, hn, if_true, buildKwargs]
  · intro fuel cfg w raw rest
    simp [runToolBlock, runLine]

/-- Witness for C7 amended at concrete inputs, discharging the
registry-membership hypotheses for `list_dir`. -/
theorem c7_line_validation_amended_witness :
    toolNames.contains (str "list_dir") = true ∧
    runLine 1 cfg0 w0 (PyLine.call (str "list_dir") []
        [(Option.none, KwVal.lit Lit.none)])
      = (some (str "ERROR: ValueError: **kwargs not allowed"), w0) ∧
    runLine 1 cfg0 w0 (PyLine.call (str "list_dir") []
        [(some (str "path"), KwVal.nonLiteral)])
      = (some (str "ERROR: ValueError: malformed node or string"), w0) ∧
    runToolBlock 1 cfg0 w0 [PyLine.notCall (str "x + 1")]
      = ((str "ERROR: unsupported line: " ++ str "x + 1")
            :: (runToolBlock 1 cfg0 w0 []).1, (runToolBlock 1 cfg0 w0 []).2) :=
  ⟨by decide,
   c7_line_validation_amended.2.1 1 cfg0 w0 (str "list_dir") [] (KwVal.lit Lit.none) []
     (by decide),
   c7_line_validation_amended.2.2.1 1 cfg0 w0 (str "list_dir") [] (str "path") [] (by decide),
   c7_line_validation_amended.2.2.2 1 cfg0 w0 (str "x + 1") []⟩

/-! ## C9: backup before overwrite -/

/-- Appending ".bak" changes the last component, so the backup path is never
the path itself. -/
theorem bakPath_ne (p : Path) : bakPath p ≠ p := by
  intro h
  have hlast := congrArg (fun l => List.getLastD l []) h
  simp only [bakPath, List.getLastD_concat] at hlast
  have hlen := congrArg List.length hlast
  simp [str] at hlen

/-- A successful lookup means the file exists. -/
theorem fileExists_of_lookup (w : World) (p : Path) (c : Str)
    (h : lookupFile w p = some c) : fileExists w p = true := by
  unfold lookupFile at h
  cases hf : w.files.find? (fun f => f.1 = p) with
  | none => rw [hf] at h; exact absurd h (by simp)
  | some pr =>
    have hmem := List.mem_of_find?_eq_some hf
    have hpr := List.find?_some hf
    simp only [decide_eq_true_eq] at hpr
    unfold fileExists
    rw [List.any_eq_true]
    exact ⟨pr, hmem, by simp [hpr]⟩

/-- After renaming `p` to its backup path, the backup holds what `p` held. -/
theorem find?_renameBakFiles (p : Path) (files : List (Path × Str)) :
    ((files.filter (fun f => f.1 ≠ bakPath p)).map
        (fun f => if f.1 = p then (bakPath p, f.2) else f)).find? (fun f => f.1 = bakPath p)
      = (files.find? (fun f => f.1 = p)).map (fun f => (bakPath p, f.2)) := by
  have hpb : p ≠ bakPath p := fun hb => bakPath_ne p hb.symm
  induction files with
  | nil => rfl
  | cons g rest ih =>
    by_cases hg : g.1 = p
    · have h1 : (decide (g.1 ≠ bakPath p)) = true := by
        simp only [hg, ne_eq, decide_eq_true_eq]
        exact hpb
      have h3 : (decide (((bakPath p, g.2) : Path × Str).1 = bakPath p)) = true := by
        simp
      have h4 : (decide (g.1 = p)) = true := by simp [hg]
      rw [List.filter_cons, h1, if_pos rfl, List.map_cons, if_pos hg, List.find?_cons, h3,
        List.find?_cons, h4]
      rfl
    · have h4 : (decide (g.1 = p)) = false := by simp [hg]
      by_cases hgb : g.1 = bakPath p
      · have h1 : (decide (g.1 ≠ bakPath p)) = false := by simp [hgb]
        rw [List.filter_cons, h1, List.find?_cons, h4]
        simp only [Bool.false_eq_true, if_false]
        exact ih
      · have h1 : (decide (g.1 ≠ bakPath p)) = true := by simp [hgb]
        have h3 : (decide ((if g.1 = p then ((bakPath p, g.2) : Path × Str) else g).1
            = bakPath p)) = false := by
          rw [if_neg hg]
          simp [hgb]
        rw [List.filter_cons, h1, if_pos rfl, List.map_cons, List.find?_cons, h3,
          List.find?_cons, h4]
        simp only [Bool.false_eq_true, if_false]
        exact ih

/-- An update targeting `p` leaves lookups at other keys unchanged. -/
theorem find?_mapUpdate_ne (p : Path) (c : Str) (q : Path) (h : q ≠ p) :
    ∀ (files : List (Path × Str)),
      (files.map (fun f => if f.1 = p then (p, c) else f)).find? (fun f => f.1 = q)
        = files.find? (fun f => f.1 = q) := by
  intro files
  induction files with
  | nil => rfl
  | cons g rest ih =>
    by_cases hg : g.1 = p
    · have hq1 : (decide (((p, c) : Path × Str).1 = q)) = false := by
        simp only [decide_eq_false_iff_not]
        exact fun hpq => h hpq.symm
      have hq2 : (decide (g.1 = q)) = false := by
        simp only [decide_eq_false_iff_not, hg]
        exact fun hpq => h hpq.symm
      rw [List.map_cons, if_pos hg, List.find?_cons, List.find?_cons]
      simp only [hq1, hq2, ih]
    · rw [List.map_cons, if_neg hg, List.find?_cons, List.find?_cons]
      cases hq : decide (g.1 = q)
      · simp only [ih]
      · rfl

/-- Appending a fresh entry for `p` leaves lookups at other keys unchanged. -/
theorem find?_append_ne (p : Path) (c : Str) (q : Path) (h : q ≠ p) :
    ∀ (files : List (Path × Str)),
      (files ++ [(p, c)]).find? (fun f => f.1 = q) = files.find? (fun f => f.1 = q) := by
  intro files
  have hq1 : (decide (((p, c) : Path × Str).1 = q)) = false := by
    simp only [decide_eq_false_iff_not]
    exact fun hpq => h hpq.symm
  induction files with
  | nil =>
    rw [List.nil_append, List.find?_cons]
    simp only [hq1, List.find?]
  | cons g rest ih =>
    rw [List.cons_append, List.find?_cons, List.find?_cons]
    cases hq : decide (g.1 = q)
    · simp only [ih]
    · rfl

/-- A fresh appended entry is found when no earlier entry has the key. -/
theorem find?_appendList_self (p : Path) (c : Str) :
    ∀ (files : List (Path × Str)), (files.any fun f => decide (f.1 = p)) = false →
      (files ++ [(p, c)]).find? (fun f => f.1 = p) = some (p, c) := by
  intro files
  induction files with
  | nil =>
    intro _
    rw [List.nil_append, List.find?_cons]
    simp
  | cons g rest ih =>
    intro hany
    rw [List.any_cons] at hany
    have h1 : (decide (g.1 = p)) = false := by
      cases hd : decide (g.1 = p)
      · rfl
      · rw [hd] at hany; simp at hany
    have h2 : (rest.any fun f => decide (f.1 = p)) = false := by
      cases hd : rest.any fun f => decide (f.1 = p)
      · rfl
      · rw [hd] at hany; simp at hany
    rw [List.cons_append, List.find?_cons]
    simp only [h1]
    exact ih h2

/-- An update at a present key is found with the new value. -/
theorem find?_mapUpdate_found (p : Path) (c : Str) :
    ∀ (files : List (Path × Str)), (files.any fun f => decide (f.1 = p)) = true →
      (files.map (fun f => if f.1 = p then (p, c) else f)).find? (fun f => f.1 = p)
        = some (p, c) := by
  intro files
  induction files with
  | nil => intro hany; simp at hany
  | cons g rest ih =>
    intro hany
    by_cases hg : g.1 = p
    · rw [List.map_cons, if_pos hg, List.find?_cons]
      simp
    · rw [List.any_cons] at hany
      have h1 : (decide (g.1 = p)) = false := by simp [hg]
      rw [h1] at hany
      simp only [Bool.false_or] at hany
      rw [List.map_cons, if_neg hg, List.find?_cons]
      simp only [h1]
      exact ih hany

/-- Looking up the written path after `setFile` yields the new content. -/
theorem find?_setFile (p : Path) (c : Str) (w : World) :
    (setFile w p c).files.find? (fun f => f.1 = p) = some (p, c) := by
  rcases w with ⟨files, dirs, macros⟩
  unfold setFile
  by_cases hany : (files.any fun f => decide (f.1 = p)) = true
  · simp only [hany, if_true]
    exact find?_mapUpdate_found p c files hany
  · have hanyF : (files.any fun f => decide (f.1 = p)) = false := by
      cases hd : files.any fun f => decide (f.1 = p)
      · rfl
      · exact absurd hd hany
    simp only [hanyF, Bool.false_eq_true, if_false]
    exact find?_appendList_self p c files hanyF

/-- `setFile` at `p` does not disturb the entry at a different path. -/
theorem lookupFile_setFile_ne (w : World) (p : Path) (c : Str) (q : Path) (h : q ≠ p) :
    lookupFile (setFile w p c) q = lookupFile w q := by
  rcases w with ⟨files, dirs, macros⟩
  unfold lookupFile setFile
  by_cases hany : (files.any fun f => decide (f.1 = p)) = true
  · simp only [hany, if_true]
    rw [find?_mapUpdate_ne p c q h]
  · have hanyF : (files.any fun f => decide (f.1 = p)) = false := by
      cases hd : files.any fun f => decide (f.1 = p)
      · rfl
      · exact absurd hd hany
    simp only [hanyF, Bool.false_eq_true, if_false]
    rw [find?_append_ne p c q h]

/-- C9: when the resolved destination of `create_file` already holds a file,
the call succeeds, the old content survives at the `.bak` path, and the new
content sits at the destination — the pre-existing file is renamed aside
before the write, never silently destroyed. -/
theorem c9_backup_before_overwrite (cfg : Config) (w : World) (fname content : Str)
    (p : Path) (old : Str)
    (hres : (resolveTarget cfg true fname w).1 = Except.ok p)
    (hfile : lookupFile (resolveTarget cfg true fname w).2 p = some old) :
    (str "OK").isPrefixOf (createFileCore cfg w (Lit.str fname) (Lit.str content)).1 = true ∧
    lookupFile (createFileCore cfg w (Lit.str fname) (Lit.str content)).2 (bakPath p)
        = some old ∧
    lookupFile (createFileCore cfg w (Lit.str fname) (Lit.str content)).2 p
        = some content := by
  rcases hrt : resolveTarget cfg true fname w with ⟨res, w1⟩
  rw [hrt] at hres hfile
  simp only at hres hfile
  subst hres
  have hex : existsPath w1 p = true := by
    unfold existsPath
    rw [fileExists_of_lookup w1 p old hfile]
    rfl
  have hcf : createFileCore cfg w (Lit.str fname) (Lit.str content)
      = (str "OK: wrote " ++ str (toString content.length) ++ str " bytes to "
          ++ relPathStr cfg p,
         setFile (renamePath w1 p (bakPath p)) p content) := by
    simp only [createFileCore, hrt, hex, if_true]
  rw [hcf]
  refine ⟨?_, ?_, ?_⟩
  · have : str "OK: wrote " ++ str (toString content.length) ++ str " bytes to "
        ++ relPathStr cfg p
        = str "OK" ++ (str ": wrote " ++ str (toString content.length) ++ str " bytes to "
          ++ relPathStr cfg p) := by simp [str]
    rw [this, isPrefixOf_append_self]
  · rw [lookupFile_setFile_ne _ _ _ _ (bakPath_ne p)]
    have hren : fileExists w1 p = true := fileExists_of_lookup w1 p old hfile
    unfold lookupFile renamePath
    rw [hren]
    simp only [if_true]
    rw [find?_renameBakFiles]
    unfold lookupFile at hfile
    cases hf : w1.files.find? (fun f => f.1 = p) with
    | none => rw [hf] at hfile; exact absurd hfile (by simp)
    | some pr =>
      rw [hf] at hfile
      simp only [Option.map_some'] at hfile ⊢
      simp [hfile]
  · unfold lookupFile
    rw [find?_setFile]
    rfl

/-- Witness for C9: overwriting `notes.txt` (content `old`) with `new`. -/
theorem c9_backup_before_overwrite_witness :
    (resolveTarget cfg0 true (str "notes") w9).1
        = Except.ok [str "root", str "workspace", str "notes.txt"] ∧
    lookupFile (resolveTarget cfg0 true (str "notes") w9).2
        [str "root", str "workspace", str "notes.txt"] = some (str "old") ∧
    ((str "OK").isPrefixOf
        (createFileCore cfg0 w9 (Lit.str (str "notes")) (Lit.str (str "new"))).1 = true ∧
      lookupFile (createFileCore cfg0 w9 (Lit.str (str "notes")) (Lit.str (str "new"))).2
          (bakPath [str "root", str "workspace", str "notes.txt"]) = some (str "old") ∧
      lookupFile (createFileCore cfg0 w9 (Lit.str (str "notes")) (Lit.str (str "new"))).2
          [str "root", str "workspace", str "notes.txt"] = some (str "new")) :=
  ⟨by rfl, by rfl,
   c9_backup_before_overwrite cfg0 w9 (str "notes") (str "new")
     [str "root", str "workspace", str "notes.txt"] (str "old") (by rfl) (by rfl)⟩

/-! ## C10: the resolved name is lowercased and space-free -/

/-- `Char.ofNat` on a valid code point reads back as that code point. -/
theorem toNat_charOfNat (n : Nat) (h : n.isValidChar) : (Char.ofNat n).toNat = n := by
  unfold Char.ofNat
  rw [dif_pos h]
  rfl

/-- Lowercasing never produces an ASCII uppercase letter. -/
theorem isUpper_pyLower (c : Char) : isUpper (pyLower c) = false := by
  unfold pyLower
  split
  case isTrue h =>
    simp only [Bool.and_eq_true, decide_eq_true_eq] at h
    have hv : Nat.isValidChar (c.toNat + 32) := Or.inl (by omega)
    unfold isUpper
    rw [toNat_charOfNat _ hv]
    have : ¬ (c.toNat + 32 ≤ 90) := by omega
    simp [this]
  case isFalse h =>
    unfold isUpper
    cases hd : (65 ≤ c.toNat && c.toNat ≤ 90 : Bool)
    · rfl
    · exact absurd hd h

/-- Characters of a `replaceAllF` result come from the replacement or the
input. -/
theorem mem_replaceAllF (pat rep : Str) (c : Char) :
    ∀ (f : Nat) (s : Str), c ∈ replaceAllF pat rep f s → c ∈ rep ∨ c ∈ s := by
  intro f
  induction f with
  | zero => intro s h; exact Or.inr h
  | succ f ih =>
    intro s h
    cases s with
    | nil => exact absurd h (by simp [replaceAllF])
    | cons a t =>
      unfold replaceAllF at h
      split at h
      · rcases List.mem_append.mp h with hc | hc
        · exact Or.inl hc
        · rcases ih _ hc with hr | hs
          · exact Or.inl hr
          · exact Or.inr (List.mem_of_mem_drop hs)
      · rcases List.mem_cons.mp h with hc | hc
        · exact Or.inr (hc ▸ List.mem_cons_self a t)
        · rcases ih _ hc with hr | hs
          · exact Or.inl hr
          · exact Or.inr (List.mem_cons_of_mem a hs)

/-- Characters of a `collapseWsF` result are spaces or input characters. -/
theorem mem_collapseWsF (c : Char) :
    ∀ (f : Nat) (s : Str), c ∈ collapseWsF f s → c = ' ' ∨ c ∈ s := by
  intro f
  induction f with
  | zero => intro s h; exact Or.inr h
  | succ f ih =>
    intro s h
    cases s with
    | nil => exact absurd h (by simp [collapseWsF])
    | cons a t =>
      unfold collapseWsF at h
      split at h
      · rcases List.mem_cons.mp h with hc | hc
        · exact Or.inl hc
        · rcases ih _ hc with hs | hs
          · exact Or.inl hs
          · exact Or.inr (List.mem_cons_of_mem a ((List.dropWhile_sublist _).subset hs))
      · rcases List.mem_cons.mp h with hc | hc
        · exact Or.inr (hc ▸ List.mem_cons_self a t)
        · rcases ih _ hc with hs | hs
          · exact Or.inl hs
          · exact Or.inr (List.mem_cons_of_mem a hs)

/-- Stripping keeps only input characters. -/
theorem mem_pyStrip (c : Char) (s : Str) (h : c ∈ pyStrip s) : c ∈ s := by
  unfold pyStrip at h
  rw [List.mem_reverse] at h
  have h1 := (List.dropWhile_sublist _).subset h
  rw [List.mem_reverse] at h1
  exact (List.dropWhile_sublist _).subset h1

/-- Quote stripping keeps only input characters. -/
theorem mem_stripChar (q c : Char) (s : Str) (h : c ∈ stripChar q s) : c ∈ s := by
  unfold stripChar at h
  rw [List.mem_reverse] at h
  have h1 := (List.dropWhile_sublist _).subset h
  rw [List.mem_reverse] at h1
  exact (List.dropWhile_sublist _).subset h1

/-- The filename left after hint removal is made of input characters. -/
theorem mem_parseDirHint (hm : List (Str × Path)) (s : Str) (c : Char)
    (h : c ∈ (parseDirHint hm s).1) : c ∈ s := by
  unfold parseDirHint at h
  cases hf : findHintF s.length false 0 s with
  | none =>
    rw [hf] at h
    exact mem_pyStrip c s h
  | some pr =>
    rcases pr with ⟨i, len, key⟩
    rw [hf] at h
    simp only at h
    have h1 := mem_pyStrip c _ h
    rcases List.mem_append.mp h1 with hc | hc
    · exact List.mem_of_mem_take hc
    · exact List.mem_of_mem_drop hc

/-- Every character of a spoken-normalized string is non-uppercase. -/
theorem normalizeSpokenPath_notUpper (s : Str) :
    ∀ c ∈ normalizeSpokenPath s, isUpper c = false := by
  have hfold : ∀ (prs : List (Str × Str)) (s0 : Str),
      (∀ c ∈ s0, isUpper c = false) →
      (∀ pr ∈ prs, ∀ c ∈ pr.2, isUpper c = false) →
      ∀ c ∈ prs.foldl (fun acc pr => replaceAll pr.1 pr.2 acc) s0, isUpper c = false := by
    intro prs
    induction prs with
    | nil => intro s0 hs _ c hc; exact hs c hc
    | cons pr rest ih =>
      intro s0 hs hreps c hc
      rw [List.foldl_cons] at hc
      refine ih (replaceAll pr.1 pr.2 s0) ?_ (fun x hx => hreps x (List.mem_cons_of_mem pr hx)) c hc
      intro d hd
      rcases mem_replaceAllF pr.1 pr.2 d _ _ hd with hr | hin
      · exact hreps pr (List.mem_cons_self pr rest) d hr
      · exact hs d hin
  intro c hc
  unfold normalizeSpokenPath at hc
  have h1 := mem_pyStrip c _ hc
  rcases mem_collapseWsF c _ _ h1 with hsp | h2
  · rw [hsp]; rfl
  · refine hfold spokenPairs _ ?_ (by decide) c h2
    intro d hd
    rcases List.mem_cons.mp hd with hd1 | hd1
    · rw [hd1]; rfl
    · rcases List.mem_append.mp hd1 with hd2 | hd2
      · rcases List.mem_map.mp hd2 with ⟨x, _, hx⟩
        rw [← hx]
        exact isUpper_pyLower x
      · rcases List.mem_singleton.mp hd2 with hd3
        rw [hd3]; rfl

/-- C10: the relative part `_resolve_target` joins under the base directory
never contains an ASCII uppercase letter or a space, whatever the raw
filename: the pipeline lowercases the whole string and maps every remaining
space to an underscore — concretely, "MyFile" resolves to
`workspace/myfile.txt`. -/
theorem c10_lowercase_underscore :
    (∀ (cfg : Config) (fname : Str) (c : Char), c ∈ (resolveParts cfg fname).1 →
        isUpper c = false ∧ c ≠ ' ') ∧
    (resolveTarget cfg0 false (str "MyFile") w0).1
      = Except.ok [str "root", str "workspace", str "myfile.txt"] := by
  constructor
  · intro cfg fname c hc
    unfold resolveParts at hc
    simp only at hc
    have hf3 : ∀ d ∈ stripChar '\''
        (stripChar '"' (pyStrip (parseDirHint cfg.hintMap (normalizeSpokenPath fname)).1)),
        isUpper d = false := by
      intro d hd
      have hd1 := mem_stripChar _ _ _ hd
      have hd2 := mem_stripChar _ _ _ hd1
      have hd3 := mem_pyStrip _ _ hd2
      have hd4 := mem_parseDirHint _ _ _ hd3
      exact normalizeSpokenPath_notUpper fname d hd4
    have hf4 : ∀ d ∈ (stripChar '\''
        (stripChar '"' (pyStrip (parseDirHint cfg.hintMap (normalizeSpokenPath fname)).1))).map
          (fun ch => if ch = ' ' then '_' else ch),
        isUpper d = false ∧ d ≠ ' ' := by
      intro d hd
      rcases List.mem_map.mp hd with ⟨x, hx, hxd⟩
      by_cases hsp : x = ' '
      · rw [hsp] at hxd
        simp only [if_pos rfl] at hxd
        rw [← hxd]
        exact ⟨rfl, by decide⟩
      · rw [if_neg hsp] at hxd
        rw [← hxd]
        exact ⟨hf3 x hx, hsp⟩
    split at hc
    · exact hf4 c hc
    · unfold ensureTxt at hc
      split at hc
      · exact hf4 c hc
      · rcases List.mem_append.mp hc with hc1 | hc1
        · exact hf4 c hc1
        · have hcc : c = '.' ∨ c = 't' ∨ c = 'x' ∨ c = 't' := by
            simpa [str] using hc1
          rcases hcc with h | h | h | h <;> subst h <;> exact ⟨by decide, by decide⟩
  · rfl

/-- Witness for C10, discharging the membership hypothesis at the letter `m`
of the resolved name `myfile.txt`. -/
theorem c10_lowercase_underscore_witness :
    'm' ∈ (resolveParts cfg0 (str "MyFile")).1 ∧
    (isUpper 'm' = false ∧ 'm' ≠ ' ') :=
  ⟨by decide, c10_lowercase_underscore.1 cfg0 (str "MyFile") 'm' (by decide)⟩

/-! ## C5: path traversal out of the sandbox -/

/-- `os.makedirs` leaves the files untouched. -/
theorem addDir_files (w : World) (p : Path) : (addDir w p).files = w.files := by
  unfold addDir
  split <;> rfl

/-- An error string of the `ValueError` shape is error-tagged. -/
theorem error_prefix_valueError (e : Str) :
    (str "ERROR").isPrefixOf (str "ERROR: ValueError: " ++ e) = true := by
  have h : str "ERROR: ValueError: " ++ e = str "ERROR" ++ (str ": ValueError: " ++ e) := by
    simp [str]
  rw [h, isPrefixOf_append_self]

attribute [irreducible] normalizeSpokenPath parseDirHint resolveParts

/-- When the full resolution (hint or default base joined with the relative
part) leaves the sandbox root, `_resolve_target` raises `ValueError` before
any file is touched: the result is an error and the files are unchanged
(only `os.makedirs` directory creation may have happened). -/
theorem resolveTarget_escape (cfg : Config) (w : World) (fname : Str) (cd : Bool)
    (hesc : cfg.fsRoot.isPrefixOf
        (joinAbs ((resolveParts cfg fname).2.getD cfg.workdir) (resolveParts cfg fname).1)
      = false) :
    (∃ e, (resolveTarget cfg cd fname w).1 = Except.error e) ∧
    (resolveTarget cfg cd fname w).2.files = w.files := by
  have hj : joinSafe cfg ((resolveParts cfg fname).2.getD cfg.workdir) (resolveParts cfg fname).1
      = Except.error (str "path escapes sandbox: "
          ++ renderPath (joinAbs ((resolveParts cfg fname).2.getD cfg.workdir)
              (resolveParts cfg fname).1)) := by
    unfold joinSafe
    simp only [hesc, Bool.false_eq_true, if_false]
  cases cd with
  | false =>
    have hr : resolveTarget cfg false fname w
        = (joinSafe cfg ((resolveParts cfg fname).2.getD cfg.workdir) (resolveParts cfg fname).1,
           w) := rfl
    rw [hr, hj]
    exact ⟨⟨_, rfl⟩, rfl⟩
  | true =>
    by_cases hsub : (dirnameStr (resolveParts cfg fname).1).isEmpty = true
    · have hr : resolveTarget cfg true fname w
          = (joinSafe cfg ((resolveParts cfg fname).2.getD cfg.workdir) (resolveParts cfg fname).1,
             addDir w ((resolveParts cfg fname).2.getD cfg.workdir)) := by
        unfold resolveTarget
        simp only [hsub, if_true]
      rw [hr, hj]
      exact ⟨⟨_, rfl⟩, addDir_files _ _⟩
    · have hsubF : (dirnameStr (resolveParts cfg fname).1).isEmpty = false := by
        cases hd : (dirnameStr (resolveParts cfg fname).1).isEmpty
        · rfl
        · exact absurd hd hsub
      rcases hjs : joinSafe cfg ((resolveParts cfg fname).2.getD cfg.workdir)
          (dirnameStr (resolveParts cfg fname).1) with e | d
      · have hr : resolveTarget cfg true fname w
            = (Except.error e, addDir w ((resolveParts cfg fname).2.getD cfg.workdir)) := by
          unfold resolveTarget
          simp only [hsubF, Bool.false_eq_true, if_false, hjs, eq_self_iff_true, if_true]
        rw [hr]
        exact ⟨⟨e, rfl⟩, addDir_files _ _⟩
      · have hr : resolveTarget cfg true fname w
            = (joinSafe cfg ((resolveParts cfg fname).2.getD cfg.workdir)
                  (resolveParts cfg fname).1,
               addDir (addDir w ((resolveParts cfg fname).2.getD cfg.workdir)) d) := by
          unfold resolveTarget
          simp only [hsubF, Bool.false_eq_true, if_false, hjs, eq_self_iff_true, if_true]
        rw [hr, hj]
        refine ⟨⟨_, rfl⟩, ?_⟩
        rw [addDir_files, addDir_files]

/-- Every fuzzy-search candidate lies under the sandbox root (the walk starts
at `FS_ROOT`). -/
theorem findCandidates_under_root (cfg : Config) (w : World) (query : Str) (limit : Nat) :
    ∀ q ∈ findCandidates cfg w query limit, cfg.fsRoot.isPrefixOf q = true := by
  intro q hq
  unfold findCandidates at hq
  have h1 := List.mem_of_mem_take hq
  rcases List.mem_map.mp h1 with ⟨f, hf, hfq⟩
  have h2 := List.mem_filter.mp hf
  rw [← hfq]
  have h3 := h2.2
  simp only [Bool.and_eq_true] at h3
  exact h3.1

/-- C5 amended: a resolution that escapes the sandbox root is always rejected
by `_join_safe` before any file I/O.  `create_file` returns an error string
and leaves the files unchanged; `list_dir` (which never writes) returns an
error string when its no-hint resolution escapes; `read_file` returns the
not-found error when the raw filename carries a path separator, and
otherwise falls back to the fuzzy search, returning either the not-found
error or the content of a file that lies inside the root — so no file
outside the root is ever read or written, but the error-string part of the
original claim fails for the fuzzy fallback. -/
theorem c5_escape_rejected_amended :
    (∀ (cfg : Config) (w : World) (fname content : Str),
        cfg.fsRoot.isPrefixOf (joinAbs ((resolveParts cfg fname).2.getD cfg.workdir)
            (resolveParts cfg fname).1) = false →
        (str "ERROR").isPrefixOf (createFileCore cfg w (Lit.str fname) (Lit.str content)).1
            = true ∧
        (createFileCore cfg w (Lit.str fname) (Lit.str content)).2.files = w.files) ∧
    (∀ (cfg : Config) (w : World) (s0 : Str),
        s0.isEmpty = false →
        (parseDirHint cfg.hintMap (normalizeSpokenPath s0)).2 = none →
        cfg.fsRoot.isPrefixOf (joinAbs cfg.workdir (normalizeSpokenPath s0)) = false →
        (str "ERROR").isPrefixOf (listDirCore cfg w (Lit.str s0)) = true) ∧
    (∀ (cfg : Config) (w : World) (fname : Str) (mb : Lit),
        cfg.fsRoot.isPrefixOf (joinAbs ((resolveParts cfg fname).2.getD cfg.workdir)
            (resolveParts cfg fname).1) = false →
        (fname.contains '/' || fname.contains '\\') = true →
        readFileCore cfg w (Lit.str fname) mb = (str "ERROR: file not found: " ++ fname, w)) ∧
    (∀ (cfg : Config) (w : World) (fname : Str) (mb : Lit),
        cfg.fsRoot.isPrefixOf (joinAbs ((resolveParts cfg fname).2.getD cfg.workdir)
            (resolveParts cfg fname).1) = false →
        (fname.contains '/' || fname.contains '\\') = false →
        readFileCore cfg w (Lit.str fname) mb = (str "ERROR: file not found: " ++ fname, w) ∨
        ∃ q, (findCandidates cfg w fname 3).head? = some q ∧
          cfg.fsRoot.isPrefixOf q = true ∧
          readFileCore cfg w (Lit.str fname) mb = (readData w q mb, w)) := by
  refine ⟨?_, ?_, ?_, ?_⟩
  · intro cfg w fname content hesc
    obtain ⟨⟨e, he⟩, hw⟩ := resolveTarget_escape cfg w fname true hesc
    rcases hrt : resolveTarget cfg true fname w with ⟨res, w1⟩
    rw [hrt] at he hw
    simp only at he hw
    subst he
    have hcf : createFileCore cfg w (Lit.str fname) (Lit.str content)
        = (str "ERROR: ValueError: " ++ e, w1) := by
      simp only [createFileCore, hrt]
    rw [hcf]
    exact ⟨error_prefix_valueError e, hw⟩
  · intro cfg w s0 hne hhint hesc
    have hfalsy : isFalsy (Lit.str s0) = false := hne
    have hj : joinSafe cfg cfg.workdir (normalizeSpokenPath s0)
        = Except.error (str "path escapes sandbox: "
            ++ renderPath (joinAbs cfg.workdir (normalizeSpokenPath s0))) := by
      unfold joinSafe
      simp only [hesc, Bool.false_eq_true, if_false]
    have hld : listDirCore cfg w (Lit.str s0)
        = str "ERROR: ValueError: " ++ (str "path escapes sandbox: "
            ++ renderPath (joinAbs cfg.workdir (normalizeSpokenPath s0))) := by
      simp only [listDirCore, hfalsy, Bool.false_eq_true, if_false, hhint, hj]
    rw [hld]
    exact error_prefix_valueError _
  · intro cfg w fname mb hesc hsep
    obtain ⟨⟨e, he⟩, _⟩ := resolveTarget_escape cfg w fname false hesc
    have hcond : (!(fname.contains '/') && !(fname.contains '\\')) = false := by
      rcases Bool.or_eq_true_iff.mp hsep with h | h
      · rw [h]
        rfl
      · rw [h]
        simp only [Bool.not_true, Bool.and_false]
    simp only [readFileCore, he, hcond, Bool.false_eq_true, if_false]
  · intro cfg w fname mb hesc hsep
    obtain ⟨⟨e, he⟩, _⟩ := resolveTarget_escape cfg w fname false hesc
    have h1 : fname.contains '/' = false := by
      cases hd : fname.contains '/'
      · rfl
      · rw [hd] at hsep; simp at hsep
    have h2 : fname.contains '\\' = false := by
      cases hd : fname.contains '\\'
      · rfl
      · rw [hd] at hsep; simp at hsep
    have hcond : (!(fname.contains '/') && !(fname.contains '\\')) = true := by
      rw [h1, h2]
      rfl
    rcases hfc : findCandidates cfg w fname 3 with _ | ⟨q, t⟩
    · left
      simp only [readFileCore, he, hcond, if_true, hfc]
    · right
      refine ⟨q, rfl,
        findCandidates_under_root cfg w fname 3 q (by rw [hfc]; exact List.mem_cons_self q t),
        ?_⟩
      simp only [readFileCore, he, hcond, if_true, hfc]

unseal normalizeSpokenPath parseDirHint resolveParts

/-- C5 counterexample: the read tool does not always reject a traversal
escape.  For the filename ".. in repo" (hint `repo` mapping to the root), the
resolution escapes the sandbox and is rejected, but `read_file` then falls
back to the fuzzy in-root search because the raw filename has no path
separator, and returns the content of an in-root file whose name happens to
contain the query — a non-error result. -/
theorem c5_read_fuzzy_counterexample :
    (resolveTarget cfg5 false (str ".. in repo") w5).1
        = Except.error (str "path escapes sandbox: /") ∧
    readFileCore cfg5 w5 (Lit.str (str ".. in repo")) (Lit.int 200000) = (str "zz", w5) ∧
    (str "ERROR").isPrefixOf (str "zz") = false := by
  refine ⟨rfl, rfl, by decide⟩



/-- Witness for C5 amended, discharging each escape hypothesis at a concrete
traversal input. -/
theorem c5_escape_rejected_amended_witness :
    (cfg0.fsRoot.isPrefixOf (joinAbs ((resolveParts cfg0 (str "../../x")).2.getD cfg0.workdir)
        (resolveParts cfg0 (str "../../x")).1) = false ∧
      ((str "ERROR").isPrefixOf
          (createFileCore cfg0 w0 (Lit.str (str "../../x")) (Lit.str (str "hi"))).1 = true ∧
        (createFileCore cfg0 w0 (Lit.str (str "../../x")) (Lit.str (str "hi"))).2.files
            = w0.files)) ∧
    (str "ERROR").isPrefixOf (listDirCore cfg0 w0 (Lit.str (str "../.."))) = true ∧
    readFileCore cfg0 w0 (Lit.str (str "../../x")) (Lit.int 200000)
        = (str "ERROR: file not found: " ++ str "../../x", w0) ∧
    (readFileCore cfg5 w0 (Lit.str (str ".. in repo")) (Lit.int 200000)
        = (str "ERROR: file not found: " ++ str ".. in repo", w0) ∨
      ∃ q, (findCandidates cfg5 w0 (str ".. in repo") 3).head? = some q ∧
        cfg5.fsRoot.isPrefixOf q = true ∧
        readFileCore cfg5 w0 (Lit.str (str ".. in repo")) (Lit.int 200000)
            = (readData w0 q (Lit.int 200000), w0)) :=
  ⟨⟨by decide, c5_escape_rejected_amended.1 cfg0 w0 (str "../../x") (str "hi") (by decide)⟩,
   c5_escape_rejected_amended.2.1 cfg0 w0 (str "../..") (by decide) (by decide) (by decide),
   c5_escape_rejected_amended.2.2.1 cfg0 w0 (str "../../x") (Lit.int 200000) (by decide)
     (by decide),
   c5_escape_rejected_amended.2.2.2 cfg5 w0 (str ".. in repo") (Lit.int 200000) (by decide)
     (by decide)⟩

end Elysia
